import Mathlib

/-!
Verification of the GNSM-AI-GUIDE fact-extraction and page-matching pipeline
(`src/utils.py`) against its natural-language specification.

The Python source is shallowly embedded:
* strings are `String` / `List Char`;
* `re`-based scanning (`_TIME_RANGE_PATTERN`, the notice-detail URL pattern)
  is embedded as deterministic character-list scanners that reproduce the
  leftmost-match / greedy semantics of the concrete patterns used;
* `\d` of the patterns is modelled as the ASCII digits and `\s` as the
  whitespace set Python's `re` uses for `str` patterns;
* BeautifulSoup is an external library: a parsed page is modelled by the
  `HtmlDoc` structure carrying exactly the data the source reads from a
  soup (block elements with their stripped strings, the `<title>` string,
  tables as rows of cell texts, `img` `src` attributes), and HTML parsing
  itself is an abstract function `String → HtmlDoc`;
* `requests` is an external library: a `Network` record gives each POST/GET
  either a response or an exception (`Except`), and `resp.json()` is the
  `jsonBody` field (`none` models a JSON decode error);
* `difflib.SequenceMatcher.ratio` is Python stdlib: it is modelled as an
  abstract similarity function `simScore` parameter, with the facts needed
  about it (its value on an empty second string) taken as hypotheses.
-/

/-! ### Character classes used by the regular expressions -/

/-- ASCII decimal digit, the `\d` class of the embedded patterns. -/
def isDig (c : Char) : Bool := 48 ≤ c.toNat && c.toNat ≤ 57

/-- The whitespace class `\s` of Python `re` on `str` patterns. -/
def isPyWs (c : Char) : Bool :=
  c.toNat = 9 || c.toNat = 10 || c.toNat = 11 || c.toNat = 12 || c.toNat = 13 ||
  c.toNat = 28 || c.toNat = 29 || c.toNat = 30 || c.toNat = 31 || c.toNat = 32 ||
  c.toNat = 133 || c.toNat = 160 || c.toNat = 0x1680 ||
  (0x2000 ≤ c.toNat && c.toNat ≤ 0x200a) ||
  c.toNat = 0x2028 || c.toNat = 0x2029 || c.toNat = 0x202f ||
  c.toNat = 0x205f || c.toNat = 0x3000

/-- The separator alternatives `(~|∼|-|–|—)` of `_TIME_RANGE_PATTERN`. -/
def isSepCh (c : Char) : Bool :=
  c = '~' || c = '∼' || c = '-' || c = '–' || c = '—'

theorem isDig_not_ws {c : Char} (h : isDig c = true) : isPyWs c = false := by
  simp only [isDig, Bool.and_eq_true, decide_eq_true_eq] at h
  simp only [isPyWs, Bool.or_eq_false_iff, Bool.and_eq_false_iff,
    decide_eq_false_iff_not]
  omega

theorem isSepCh_not_ws {c : Char} (h : isSepCh c = true) : isPyWs c = false := by
  simp only [isSepCh, Bool.or_eq_true, decide_eq_true_eq] at h
  rcases h with ((((h | h) | h) | h) | h) <;> subst h <;> decide

theorem isSepCh_not_dig {c : Char} (h : isSepCh c = true) : isDig c = false := by
  simp only [isSepCh, Bool.or_eq_true, decide_eq_true_eq] at h
  rcases h with ((((h | h) | h) | h) | h) <;> subst h <;> decide

theorem isSepCh_ne_colon {c : Char} (h : isSepCh c = true) : c ≠ ':' := by
  simp only [isSepCh, Bool.or_eq_true, decide_eq_true_eq] at h
  rcases h with ((((h | h) | h) | h) | h) <;> subst h <;> decide

theorem colon_not_dig : isDig ':' = false := by decide

/-! ### The time-range normalizer `_normalize_time_ranges`

`_TIME_RANGE_PATTERN = (\d{1,2}:\d{2})\s*(~|∼|-|–|—)?\s*(\d{1,2}:\d{2})`,
applied with `re.sub`: scan left to right, at each position try an anchored
match; on success emit `start + (sep or "~") + end` and continue after the
match, otherwise copy one character.  The anchored attempt is deterministic
(the greedy 1-or-2-digit hour is decided by the position of the colon, and
no backtracking alternative of the pattern can succeed when the path below
fails), so it is embedded as the direct parser `tryMatch`. -/

/-- Anchored parse of one clock-time token `\d{1,2}:\d{2}` (greedy hour:
two digits are taken when the colon is third, one when it is second; the
two alternatives exclude each other, so no backtracking is needed).
Returns the token and the remaining input. -/
def parseTime : List Char → Option (List Char × List Char)
  | a :: b :: c :: m1 :: m2 :: r =>
    if isDig a && isDig b && c = ':' && isDig m1 && isDig m2 then
      some ([a, b, c, m1, m2], r)
    else if isDig a && b = ':' && isDig c && isDig m1 then
      some ([a, b, c, m1], m2 :: r)
    else none
  | a :: b :: m1 :: m2 :: r =>
    if isDig a && b = ':' && isDig m1 && isDig m2 then
      some ([a, b, m1, m2], r)
    else none
  | _ => none

/-- A clock-time token: `d:dd` or `dd:dd` over ASCII digits. -/
def IsTime (t : List Char) : Prop :=
  (∃ a m1 m2, t = [a, ':', m1, m2] ∧ isDig a = true ∧ isDig m1 = true ∧ isDig m2 = true) ∨
  (∃ a b m1 m2, t = [a, b, ':', m1, m2] ∧ isDig a = true ∧ isDig b = true ∧
    isDig m1 = true ∧ isDig m2 = true)

/-- Continuation of the anchored attempt after the first token and the
first whitespace run, when the next character is a separator: skip the
second whitespace run and require the second token. -/
def tryMatchSep (t1 : List Char) (c : Char) (r3 : List Char) :
    Option (List Char × List Char) :=
  match parseTime (r3.dropWhile isPyWs) with
  | some (t2, r5) => some (t1 ++ c :: t2, r5)
  | none => none

/-- Continuation when the next character is not a separator: the second
token must start right there and the default `'~'` is inserted. -/
def tryMatchNoSep (t1 : List Char) (c : Char) (r3 : List Char) :
    Option (List Char × List Char) :=
  match parseTime (c :: r3) with
  | some (t2, r5) => some (t1 ++ '~' :: t2, r5)
  | none => none

/-- Dispatch on the first character after the first whitespace run. -/
def tryMatchAfter (t1 : List Char) : List Char → Option (List Char × List Char)
  | [] => none
  | c :: r3 => if isSepCh c then tryMatchSep t1 c r3 else tryMatchNoSep t1 c r3

/-- One anchored attempt of `_TIME_RANGE_PATTERN` at the head of the input,
returning the replacement text `start ++ sep ++ end` (the separator is kept
when present, `'~'` is inserted otherwise) together with the input remaining
after the match. -/
def tryMatch (xs : List Char) : Option (List Char × List Char) :=
  match parseTime xs with
  | none => none
  | some (t1, r1) => tryMatchAfter t1 (r1.dropWhile isPyWs)

theorem parseTime_inv {xs t r} (h : parseTime xs = some (t, r)) :
    IsTime t ∧ xs = t ++ r := by
  match xs with
  | [] => simp [parseTime] at h
  | [a] => simp [parseTime] at h
  | [a, b] => simp [parseTime] at h
  | [a, b, c] => simp [parseTime] at h
  | [a, b, m1, m2] =>
    rw [show parseTime [a, b, m1, m2] =
        (if isDig a && b = ':' && isDig m1 && isDig m2 then
          some ([a, b, m1, m2], []) else none) from rfl] at h
    split_ifs at h with hcond
    · simp only [Option.some.injEq, Prod.mk.injEq] at h
      obtain ⟨rfl, rfl⟩ := h
      simp only [Bool.and_eq_true, decide_eq_true_eq] at hcond
      obtain ⟨⟨⟨ha, hb⟩, h1⟩, h2⟩ := hcond
      subst hb
      exact ⟨Or.inl ⟨a, m1, m2, rfl, ha, h1, h2⟩, by simp⟩
  | a :: b :: c :: m1 :: m2 :: r' =>
    rw [show parseTime (a :: b :: c :: m1 :: m2 :: r') =
        (if isDig a && isDig b && c = ':' && isDig m1 && isDig m2 then
          some ([a, b, c, m1, m2], r')
        else if isDig a && b = ':' && isDig c && isDig m1 then
          some ([a, b, c, m1], m2 :: r')
        else none) from rfl] at h
    split_ifs at h with h5 h4
    · simp only [Option.some.injEq, Prod.mk.injEq] at h
      obtain ⟨rfl, rfl⟩ := h
      simp only [Bool.and_eq_true, decide_eq_true_eq] at h5
      obtain ⟨⟨⟨⟨ha, hb⟩, hc⟩, h1⟩, h2⟩ := h5
      subst hc
      exact ⟨Or.inr ⟨a, b, m1, m2, rfl, ha, hb, h1, h2⟩, by simp⟩
    · simp only [Option.some.injEq, Prod.mk.injEq] at h
      obtain ⟨rfl, rfl⟩ := h
      simp only [Bool.and_eq_true, decide_eq_true_eq] at h4
      obtain ⟨⟨⟨ha, hb⟩, h1⟩, h2⟩ := h4
      subst hb
      exact ⟨Or.inl ⟨a, c, m1, rfl, ha, h1, h2⟩, by simp⟩

theorem parseTime_of_time {t : List Char} (ht : IsTime t) (x : List Char) :
    parseTime (t ++ x) = some (t, x) := by
  rcases ht with ⟨a, m1, m2, rfl, ha, h1, h2⟩ | ⟨a, b, m1, m2, rfl, ha, hb, h1, h2⟩
  · match x with
    | [] => simp [parseTime, ha, h1, h2]
    | y :: ys =>
      have hc : isDig ':' = false := colon_not_dig
      simp [parseTime, ha, h1, h2, hc]
  · simp [parseTime, ha, hb, h1, h2]

theorem parseTime_none_of_head {c : Char} (hc : isDig c = false) (l : List Char) :
    parseTime (c :: l) = none := by
  match l with
  | [] => rfl
  | [b] => rfl
  | [b, d] => rfl
  | [b, d, e] => simp [parseTime, hc]
  | b :: d :: e :: f :: r => simp [parseTime, hc]

theorem parseTime_nil : parseTime [] = none := rfl

theorem IsTime_length {t : List Char} (h : IsTime t) : t.length = 4 ∨ t.length = 5 := by
  rcases h with ⟨a, m1, m2, rfl, _⟩ | ⟨a, b, m1, m2, rfl, _⟩ <;> simp

theorem IsTime_ne_nil {t : List Char} (h : IsTime t) : t ≠ [] := by
  rcases h with ⟨a, m1, m2, rfl, _⟩ | ⟨a, b, m1, m2, rfl, _⟩ <;> simp

theorem IsTime_head_dig {t : List Char} (h : IsTime t) :
    ∃ d t', t = d :: t' ∧ isDig d = true := by
  rcases h with ⟨a, m1, m2, rfl, ha, _⟩ | ⟨a, b, m1, m2, rfl, ha, _⟩ <;>
    exact ⟨a, _, rfl, ha⟩

theorem IsTime_mem {t : List Char} (h : IsTime t) :
    ∀ c ∈ t, isDig c = true ∨ c = ':' := by
  rcases h with ⟨a, m1, m2, rfl, ha, h1, h2⟩ | ⟨a, b, m1, m2, rfl, ha, hb, h1, h2⟩ <;>
    intro c hc <;> simp only [List.mem_cons, List.mem_singleton] at hc
  · rcases hc with rfl | rfl | rfl | rfl | hc
    · exact Or.inl ha
    · exact Or.inr rfl
    · exact Or.inl h1
    · exact Or.inl h2
    · simp at hc
  · rcases hc with rfl | rfl | rfl | rfl | rfl | hc
    · exact Or.inl ha
    · exact Or.inl hb
    · exact Or.inr rfl
    · exact Or.inl h1
    · exact Or.inl h2
    · simp at hc


theorem tryMatch_parse_none {xs} (h : parseTime xs = none) : tryMatch xs = none := by
  unfold tryMatch; rw [h]

theorem tryMatch_parse_some {xs t1 r1} (h : parseTime xs = some (t1, r1)) :
    tryMatch xs = tryMatchAfter t1 (r1.dropWhile isPyWs) := by
  unfold tryMatch; rw [h]

theorem tryMatchSep_some {t1 c r3 t2 r5}
    (h : parseTime (r3.dropWhile isPyWs) = some (t2, r5)) :
    tryMatchSep t1 c r3 = some (t1 ++ c :: t2, r5) := by
  unfold tryMatchSep; rw [h]

theorem tryMatchSep_none {t1 c r3}
    (h : parseTime (r3.dropWhile isPyWs) = none) :
    tryMatchSep t1 c r3 = none := by
  unfold tryMatchSep; rw [h]

theorem tryMatchNoSep_some {t1 c r3 t2 r5}
    (h : parseTime (c :: r3) = some (t2, r5)) :
    tryMatchNoSep t1 c r3 = some (t1 ++ '~' :: t2, r5) := by
  unfold tryMatchNoSep; rw [h]

theorem tryMatchNoSep_none {t1 c r3}
    (h : parseTime (c :: r3) = none) :
    tryMatchNoSep t1 c r3 = none := by
  unfold tryMatchNoSep; rw [h]

theorem dropWhile_eq_nil_all {p : Char → Bool} {l : List Char}
    (h : l.dropWhile p = []) : ∀ c ∈ l, p c = true := by
  induction l with
  | nil => intro c hc; simp at hc
  | cons a l ih =>
    rw [List.dropWhile_cons] at h
    intro c hc
    by_cases hp : p a
    · simp only [hp, if_true] at h
      rcases List.mem_cons.1 hc with rfl | hc
      · exact hp
      · exact ih h c hc
    · simp [hp] at h

theorem dropWhile_cons_head {p : Char → Bool} {l : List Char} {d : Char} {tl : List Char}
    (h : l.dropWhile p = d :: tl) : p d = false := by
  induction l with
  | nil => simp at h
  | cons a l ih =>
    rw [List.dropWhile_cons] at h
    by_cases hp : p a
    · simp only [hp, if_true] at h; exact ih h
    · simp only [hp, if_false] at h
      cases h
      simpa using hp

theorem dropWhile_append_cons {p : Char → Bool} {x : List Char} {d : Char} {tl : List Char}
    (h : x.dropWhile p = d :: tl) (y : List Char) :
    (x ++ y).dropWhile p = d :: tl ++ y := by
  rw [List.dropWhile_append]
  simp [h]

theorem dropWhile_append_all {p : Char → Bool} {x : List Char}
    (h : ∀ c ∈ x, p c = true) (y : List Char) :
    (x ++ y).dropWhile p = y.dropWhile p :=
  List.dropWhile_append_of_pos h

theorem dropWhile_cons_neg {p : Char → Bool} {c : Char} (h : p c = false)
    (l : List Char) : (c :: l).dropWhile p = c :: l := by
  rw [List.dropWhile_cons, h]; simp

/-- The length of `dropWhile` never exceeds the input's. -/
theorem length_dropWhile_le' (p : Char → Bool) (l : List Char) :
    (l.dropWhile p).length ≤ l.length := by
  induction l with
  | nil => simp
  | cons a l ih =>
    rw [List.dropWhile_cons]
    by_cases hp : p a
    · simp only [hp, if_true]; exact Nat.le_succ_of_le ih
    · simp [hp]

theorem parseTime_some_length {xs t r} (h : parseTime xs = some (t, r)) :
    r.length + 4 ≤ xs.length := by
  obtain ⟨ht, rfl⟩ := parseTime_inv h
  rcases IsTime_length ht with h4 | h4 <;> simp only [List.length_append, h4] <;> omega

theorem tryMatch_some_length {xs r rest} (h : tryMatch xs = some (r, rest)) :
    rest.length < xs.length := by
  cases hp : parseTime xs with
  | none => rw [tryMatch_parse_none hp] at h; simp at h
  | some v =>
    obtain ⟨t1, r1⟩ := v
    rw [tryMatch_parse_some hp] at h
    have h1 : r1.length + 4 ≤ xs.length := parseTime_some_length hp
    cases hdw : r1.dropWhile isPyWs with
    | nil => rw [hdw] at h; simp [tryMatchAfter] at h
    | cons c r3 =>
      rw [hdw] at h
      have hr3 : r3.length < r1.length := by
        have h2 := length_dropWhile_le' isPyWs r1
        rw [hdw] at h2
        simp only [List.length_cons] at h2
        omega
      by_cases hs : isSepCh c
      · rw [show tryMatchAfter t1 (c :: r3) = tryMatchSep t1 c r3 by
          simp [tryMatchAfter, hs]] at h
        cases hp2 : parseTime (r3.dropWhile isPyWs) with
        | none => rw [tryMatchSep_none hp2] at h; simp at h
        | some v2 =>
          obtain ⟨t2, r5⟩ := v2
          rw [tryMatchSep_some hp2] at h
          simp only [Option.some.injEq, Prod.mk.injEq] at h
          obtain ⟨-, rfl⟩ := h
          have h2 : r5.length + 4 ≤ (r3.dropWhile isPyWs).length := parseTime_some_length hp2
          have h3 := length_dropWhile_le' isPyWs r3
          omega
      · rw [show tryMatchAfter t1 (c :: r3) = tryMatchNoSep t1 c r3 by
          simp [tryMatchAfter, hs]] at h
        cases hp2 : parseTime (c :: r3) with
        | none => rw [tryMatchNoSep_none hp2] at h; simp at h
        | some v2 =>
          obtain ⟨t2, r5⟩ := v2
          rw [tryMatchNoSep_some hp2] at h
          simp only [Option.some.injEq, Prod.mk.injEq] at h
          obtain ⟨-, rfl⟩ := h
          have h2 : r5.length + 4 ≤ (c :: r3).length := parseTime_some_length hp2
          simp only [List.length_cons] at h2
          omega

/-- `tryMatch` on two tokens joined by a single separator character matches
exactly that replacement-shaped prefix and leaves the continuation. -/
theorem tryMatch_repl {t1 t2 : List Char} {s : Char}
    (ht1 : IsTime t1) (hs : isSepCh s = true) (ht2 : IsTime t2) (x : List Char) :
    tryMatch (t1 ++ s :: t2 ++ x) = some (t1 ++ s :: t2, x) := by
  obtain ⟨d, t2', rfl, hd⟩ := IsTime_head_dig ht2
  rw [show t1 ++ s :: (d :: t2') ++ x = t1 ++ (s :: (d :: (t2' ++ x))) by simp]
  rw [tryMatch_parse_some (parseTime_of_time ht1 _)]
  rw [dropWhile_cons_neg (isSepCh_not_ws hs)]
  rw [show tryMatchAfter t1 (s :: (d :: (t2' ++ x))) =
      tryMatchSep t1 s (d :: (t2' ++ x)) by simp [tryMatchAfter, hs]]
  have hp2 : parseTime ((d :: (t2' ++ x)).dropWhile isPyWs) = some (d :: t2', x) := by
    rw [dropWhile_cons_neg (isDig_not_ws hd)]
    exact parseTime_of_time ht2 x
  rw [tryMatchSep_some hp2]

/-- `tryMatch` on two adjacent tokens separated only by whitespace inserts
the default `'~'`. -/
theorem tryMatch_nosep {t1 w t2 : List Char}
    (ht1 : IsTime t1) (hw : ∀ c ∈ w, isPyWs c = true) (ht2 : IsTime t2)
    (x : List Char) :
    tryMatch (t1 ++ w ++ t2 ++ x) = some (t1 ++ '~' :: t2, x) := by
  obtain ⟨d, t2', rfl, hd⟩ := IsTime_head_dig ht2
  have hds : isSepCh d = false := by
    cases hsd : isSepCh d
    · rfl
    · exact absurd hd (by rw [isSepCh_not_dig hsd]; simp)
  rw [show t1 ++ w ++ (d :: t2') ++ x = t1 ++ (w ++ (d :: (t2' ++ x))) by simp]
  rw [tryMatch_parse_some (parseTime_of_time ht1 _)]
  rw [dropWhile_append_all hw, dropWhile_cons_neg (isDig_not_ws hd)]
  rw [show tryMatchAfter t1 (d :: (t2' ++ x)) = tryMatchNoSep t1 d (t2' ++ x) by
    simp [tryMatchAfter, hds]]
  have hp2 : parseTime (d :: (t2' ++ x)) = some (d :: t2', x) :=
    parseTime_of_time ht2 x
  rw [tryMatchNoSep_some hp2]

/-- `tryMatch` on two tokens with a separator surrounded by whitespace keeps
the separator and drops the whitespace. -/
theorem tryMatch_sep {t1 w1 w2 t2 : List Char} {s : Char}
    (ht1 : IsTime t1) (hw1 : ∀ c ∈ w1, isPyWs c = true) (hs : isSepCh s = true)
    (hw2 : ∀ c ∈ w2, isPyWs c = true) (ht2 : IsTime t2) (x : List Char) :
    tryMatch (t1 ++ w1 ++ s :: w2 ++ t2 ++ x) = some (t1 ++ s :: t2, x) := by
  obtain ⟨d, t2', rfl, hd⟩ := IsTime_head_dig ht2
  rw [show t1 ++ w1 ++ s :: w2 ++ (d :: t2') ++ x =
      t1 ++ (w1 ++ (s :: (w2 ++ (d :: (t2' ++ x))))) by simp]
  rw [tryMatch_parse_some (parseTime_of_time ht1 _)]
  rw [dropWhile_append_all hw1, dropWhile_cons_neg (isSepCh_not_ws hs)]
  rw [show tryMatchAfter t1 (s :: (w2 ++ (d :: (t2' ++ x)))) =
      tryMatchSep t1 s (w2 ++ (d :: (t2' ++ x))) by simp [tryMatchAfter, hs]]
  have hp2 : parseTime ((w2 ++ (d :: (t2' ++ x))).dropWhile isPyWs) =
      some (d :: t2', x) := by
    rw [dropWhile_append_all hw2, dropWhile_cons_neg (isDig_not_ws hd)]
    exact parseTime_of_time ht2 x
  rw [tryMatchSep_some hp2]

/-- Fuel-indexed scanner for `re.sub` of `_TIME_RANGE_PATTERN` (structural
recursion on the fuel so that the definition computes; the fuel is always
instantiated with the input length, which suffices because every step
consumes at least one character). -/
def normTRAux : Nat → List Char → List Char
  | 0, _ => []
  | _, [] => []
  | fuel + 1, c :: cs' =>
    match tryMatch (c :: cs') with
    | some (r, rest) => r ++ normTRAux fuel rest
    | none => c :: normTRAux fuel cs'

/-- `re.sub` of `_TIME_RANGE_PATTERN`: scan left to right, replacing each
non-overlapping match and copying unmatched characters. -/
def normTR (cs : List Char) : List Char := normTRAux cs.length cs

/-- `_normalize_time_ranges` from `src/utils.py`, on `String`. -/
def _normalize_time_ranges (s : String) : String := ⟨normTR s.data⟩

theorem normTRAux_nil (fuel : Nat) : normTRAux fuel [] = [] := by
  cases fuel <;> rfl

theorem normTRAux_fuel_irrel :
    ∀ fuel fuel' cs, cs.length ≤ fuel → cs.length ≤ fuel' →
      normTRAux fuel cs = normTRAux fuel' cs := by
  intro fuel
  induction fuel with
  | zero =>
    intro fuel' cs hl hl'
    match cs, hl with
    | [], _ => rw [normTRAux_nil, normTRAux_nil]
  | succ fuel ih =>
    intro fuel' cs hl hl'
    match cs with
    | [] => rw [normTRAux_nil, normTRAux_nil]
    | c :: cs' =>
      match fuel', hl' with
      | f' + 1, hl' =>
        show (match tryMatch (c :: cs') with
          | some (r, rest) => r ++ normTRAux fuel rest
          | none => c :: normTRAux fuel cs') =
          (match tryMatch (c :: cs') with
          | some (r, rest) => r ++ normTRAux f' rest
          | none => c :: normTRAux f' cs')
        cases htm : tryMatch (c :: cs') with
        | some v =>
          obtain ⟨r, rest⟩ := v
          have hrest := tryMatch_some_length htm
          simp only [List.length_cons] at hrest hl hl'
          show r ++ normTRAux fuel rest = r ++ normTRAux f' rest
          rw [ih f' rest (by omega) (by omega)]
        | none =>
          simp only [List.length_cons] at hl hl'
          show c :: normTRAux fuel cs' = c :: normTRAux f' cs'
          rw [ih f' cs' (by omega) (by omega)]

theorem normTR_nil : normTR [] = [] := rfl

theorem normTR_cons_some {c : Char} {cs' r rest : List Char}
    (h : tryMatch (c :: cs') = some (r, rest)) :
    normTR (c :: cs') = r ++ normTR rest := by
  have hrest := tryMatch_some_length h
  simp only [List.length_cons] at hrest
  show normTRAux (cs'.length + 1) (c :: cs') = r ++ normTRAux rest.length rest
  rw [show normTRAux (cs'.length + 1) (c :: cs') =
    (match tryMatch (c :: cs') with
      | some (r, rest) => r ++ normTRAux cs'.length rest
      | none => c :: normTRAux cs'.length cs') from rfl, h]
  show r ++ normTRAux cs'.length rest = r ++ normTRAux rest.length rest
  rw [normTRAux_fuel_irrel cs'.length rest.length rest (by omega) (Nat.le_refl _)]

theorem normTR_cons_none {c : Char} {cs' : List Char}
    (h : tryMatch (c :: cs') = none) :
    normTR (c :: cs') = c :: normTR cs' := by
  show normTRAux (cs'.length + 1) (c :: cs') = c :: normTRAux cs'.length cs'
  rw [show normTRAux (cs'.length + 1) (c :: cs') =
    (match tryMatch (c :: cs') with
      | some (r, rest) => r ++ normTRAux cs'.length rest
      | none => c :: normTRAux cs'.length cs') from rfl, h]

theorem normTR_of_some {ys r rest : List Char}
    (h : tryMatch ys = some (r, rest)) :
    normTR ys = r ++ normTR rest := by
  match ys with
  | [] => rw [tryMatch_parse_none parseTime_nil] at h; simp at h
  | c :: cs' => exact normTR_cons_some h

theorem dig_not_sep {d : Char} (hd : isDig d = true) : isSepCh d = false := by
  cases hsd : isSepCh d
  · rfl
  · exact absurd hd (by rw [isSepCh_not_dig hsd]; simp)

/-- A successful anchored token parse on `P ++ Q` with `5 ≤ |P|` lies
entirely inside `P`. -/
theorem parseTime_decomp_prefix {P Q u r : List Char}
    (h : parseTime (P ++ Q) = some (u, r)) (h5 : 5 ≤ P.length) :
    ∃ P1, P = u ++ P1 ∧ r = P1 ++ Q := by
  obtain ⟨hu, heq⟩ := parseTime_inv h
  have hul : u.length ≤ P.length := by
    rcases IsTime_length hu with h4 | h4 <;> omega
  refine ⟨P.drop u.length, ?_, ?_⟩
  · have h1 : (P ++ Q).take u.length = u := by
      rw [heq]; exact List.take_left u r
    have h2 : (P ++ Q).take u.length = P.take u.length := by
      rw [List.take_append_eq_append_take, Nat.sub_eq_zero_of_le hul]
      simp
    conv_lhs => rw [← List.take_append_drop u.length P]
    rw [← h2, h1]
  · have h3 : (P ++ Q).drop u.length = r := by
      rw [heq]; exact List.drop_left u r
    rw [← h3, List.drop_append_eq_append_drop, Nat.sub_eq_zero_of_le hul]
    simp

/-- A successful anchored token parse on `X ++ σ :: Y` cannot cross the
non-token character `σ`: it lies entirely inside `X`. -/
theorem parseTime_cross {X Y u r : List Char} {σ : Char}
    (hσd : isDig σ = false) (hσc : σ ≠ ':')
    (h : parseTime (X ++ σ :: Y) = some (u, r)) :
    ∃ X1, X = u ++ X1 ∧ r = X1 ++ σ :: Y := by
  obtain ⟨hu, heq⟩ := parseTime_inv h
  have hul : u.length ≤ X.length := by
    by_contra hlt
    push_neg at hlt
    have hget1 : (X ++ σ :: Y)[X.length]? = some σ := by
      rw [List.getElem?_append_right (Nat.le_refl _)]
      simp
    have hget2 : (u ++ r)[X.length]? = u[X.length]? :=
      List.getElem?_append_left hlt
    rw [heq, hget2] at hget1
    have hmem : σ ∈ u := List.getElem?_mem hget1
    rcases IsTime_mem hu σ hmem with hc | hc
    · rw [hσd] at hc; cases hc
    · exact hσc hc
  refine ⟨X.drop u.length, ?_, ?_⟩
  · have h1 : (X ++ σ :: Y).take u.length = u := by
      rw [heq]; exact List.take_left u r
    have h2 : (X ++ σ :: Y).take u.length = X.take u.length := by
      rw [List.take_append_eq_append_take, Nat.sub_eq_zero_of_le hul]
      simp
    conv_lhs => rw [← List.take_append_drop u.length X]
    rw [← h2, h1]
  · have h3 : (X ++ σ :: Y).drop u.length = r := by
      rw [heq]; exact List.drop_left u r
    rw [← h3, List.drop_append_eq_append_drop, Nat.sub_eq_zero_of_le hul]
    simp

/-- Core of the idempotence argument.  If an anchored match attempt fails at
a position whose tail decomposes as a full pattern occurrence
`t1 ++ w1 ++ mid ++ t2 ++ rest` preceded by a non-empty prefix `pre`, then
the attempt still fails after that occurrence is replaced by
`t1 ++ σ :: t2` (any separator) with an arbitrary continuation `Z`. -/
theorem tryMatch_none_transport {pre t1 w1 mid t2 rest Z : List Char} {σ : Char}
    (hpre : pre ≠ []) (ht1 : IsTime t1) (ht2 : IsTime t2)
    (hw1 : ∀ c ∈ w1, isPyWs c = true)
    (hmid : mid = [] ∨ ∃ s w2, mid = s :: w2 ∧ isSepCh s = true ∧
      ∀ c ∈ w2, isPyWs c = true)
    (hσ : isSepCh σ = true)
    (hnone : tryMatch (pre ++ t1 ++ w1 ++ mid ++ t2 ++ rest) = none) :
    tryMatch (pre ++ t1 ++ σ :: t2 ++ Z) = none := by
  have hP5 : 5 ≤ (pre ++ t1).length := by
    match pre with
    | [] => exact absurd rfl hpre
    | p :: pre' =>
      rcases IsTime_length ht1 with h4 | h4 <;>
        simp only [List.length_append, List.length_cons, h4] <;> omega
  rw [show pre ++ t1 ++ σ :: t2 ++ Z = (pre ++ t1) ++ (σ :: (t2 ++ Z)) by simp]
  rw [show pre ++ t1 ++ w1 ++ mid ++ t2 ++ rest =
      (pre ++ t1) ++ (w1 ++ (mid ++ (t2 ++ rest))) by simp] at hnone
  cases hp : parseTime ((pre ++ t1) ++ (σ :: (t2 ++ Z))) with
  | none => exact tryMatch_parse_none hp
  | some v =>
    obtain ⟨u1, r1⟩ := v
    obtain ⟨P1, hPdec, hr1⟩ := parseTime_decomp_prefix hp hP5
    have hu1 : IsTime u1 := (parseTime_inv hp).1
    have hporig : parseTime ((pre ++ t1) ++ (w1 ++ (mid ++ (t2 ++ rest)))) =
        some (u1, P1 ++ (w1 ++ (mid ++ (t2 ++ rest)))) := by
      rw [hPdec, List.append_assoc]
      exact parseTime_of_time hu1 _
    rw [tryMatch_parse_some hporig] at hnone
    rw [tryMatch_parse_some hp, hr1]
    cases hdw : P1.dropWhile isPyWs with
    | nil =>
      -- `P1` is all whitespace; the original attempt reaches `t2` and
      -- succeeds, contradicting `hnone`.
      exfalso
      have hallP1 : ∀ c ∈ P1, isPyWs c = true := dropWhile_eq_nil_all hdw
      have hP1w1 : ∀ c ∈ P1 ++ w1, isPyWs c = true := by
        intro c hc
        rcases List.mem_append.1 hc with h | h
        · exact hallP1 c h
        · exact hw1 c h
      obtain ⟨d2, t2', ht2eq, hd2⟩ := IsTime_head_dig ht2
      rcases hmid with rfl | ⟨s, w2, rfl, hs, hw2⟩
      · rw [show P1 ++ (w1 ++ ([] ++ (t2 ++ rest))) =
            (P1 ++ w1) ++ (t2 ++ rest) by simp] at hnone
        rw [show t2 ++ rest = d2 :: (t2' ++ rest) by rw [ht2eq]; simp] at hnone
        rw [dropWhile_append_all hP1w1] at hnone
        rw [dropWhile_cons_neg (isDig_not_ws hd2)] at hnone
        rw [show tryMatchAfter u1 (d2 :: (t2' ++ rest)) =
            tryMatchNoSep u1 d2 (t2' ++ rest) by
          simp [tryMatchAfter, dig_not_sep hd2]] at hnone
        have hp2 : parseTime (d2 :: (t2' ++ rest)) = some (d2 :: t2', rest) := by
          rw [← List.cons_append]
          rw [← ht2eq]
          rw [ht2eq]
          exact parseTime_of_time (ht2eq ▸ ht2) rest
        rw [tryMatchNoSep_some hp2] at hnone
        simp at hnone
      · rw [show P1 ++ (w1 ++ ((s :: w2) ++ (t2 ++ rest))) =
            (P1 ++ w1) ++ (s :: (w2 ++ (t2 ++ rest))) by simp] at hnone
        rw [dropWhile_append_all hP1w1] at hnone
        rw [dropWhile_cons_neg (isSepCh_not_ws hs)] at hnone
        rw [show tryMatchAfter u1 (s :: (w2 ++ (t2 ++ rest))) =
            tryMatchSep u1 s (w2 ++ (t2 ++ rest)) by
          simp [tryMatchAfter, hs]] at hnone
        have hp2 : parseTime ((w2 ++ (t2 ++ rest)).dropWhile isPyWs) =
            some (t2, rest) := by
          rw [show t2 ++ rest = d2 :: (t2' ++ rest) by rw [ht2eq]; simp,
            dropWhile_append_all hw2, dropWhile_cons_neg (isDig_not_ws hd2),
            show d2 :: (t2' ++ rest) = t2 ++ rest by rw [ht2eq]; simp]
          exact parseTime_of_time ht2 rest
        rw [tryMatchSep_some hp2] at hnone
        simp at hnone
    | cons dd tl =>
      -- the first non-whitespace character after the first token is inside
      -- the unchanged region `P1`.
      rw [dropWhile_append_cons hdw, List.cons_append]
      rw [dropWhile_append_cons hdw, List.cons_append] at hnone
      by_cases hsd : isSepCh dd
      · rw [show tryMatchAfter u1 (dd :: (tl ++ (σ :: (t2 ++ Z)))) =
            tryMatchSep u1 dd (tl ++ (σ :: (t2 ++ Z))) by
          simp [tryMatchAfter, hsd]]
        rw [show tryMatchAfter u1 (dd :: (tl ++ (w1 ++ (mid ++ (t2 ++ rest))))) =
            tryMatchSep u1 dd (tl ++ (w1 ++ (mid ++ (t2 ++ rest)))) by
          simp [tryMatchAfter, hsd]] at hnone
        cases hdw2 : tl.dropWhile isPyWs with
        | nil =>
          -- everything up to the inserted separator is whitespace: the
          -- second token would have to start at `σ`, which is impossible.
          apply tryMatchSep_none
          rw [dropWhile_append_all (dropWhile_eq_nil_all hdw2),
            dropWhile_cons_neg (isSepCh_not_ws hσ)]
          exact parseTime_none_of_head (isSepCh_not_dig hσ) _
        | cons e tl2 =>
          have hdrop : (tl ++ (σ :: (t2 ++ Z))).dropWhile isPyWs =
              (e :: tl2) ++ (σ :: (t2 ++ Z)) := dropWhile_append_cons hdw2 _
          cases hp2 : parseTime ((e :: tl2) ++ (σ :: (t2 ++ Z))) with
          | none => exact tryMatchSep_none (by rw [hdrop]; exact hp2)
          | some v2 =>
            exfalso
            obtain ⟨u2, r5⟩ := v2
            obtain ⟨X1, hX, hr5⟩ :=
              parseTime_cross (isSepCh_not_dig hσ) (isSepCh_ne_colon hσ) hp2
            have hu2 : IsTime u2 := (parseTime_inv hp2).1
            have hdrop' : (tl ++ (w1 ++ (mid ++ (t2 ++ rest)))).dropWhile isPyWs =
                (e :: tl2) ++ (w1 ++ (mid ++ (t2 ++ rest))) :=
              dropWhile_append_cons hdw2 _
            have hporig2 : parseTime ((tl ++ (w1 ++ (mid ++ (t2 ++ rest)))).dropWhile isPyWs) =
                some (u2, X1 ++ (w1 ++ (mid ++ (t2 ++ rest)))) := by
              rw [hdrop', hX, List.append_assoc]
              exact parseTime_of_time hu2 _
            rw [tryMatchSep_some hporig2] at hnone
            simp at hnone
      · rw [show tryMatchAfter u1 (dd :: (tl ++ (σ :: (t2 ++ Z)))) =
            tryMatchNoSep u1 dd (tl ++ (σ :: (t2 ++ Z))) by
          simp [tryMatchAfter, hsd]]
        rw [show tryMatchAfter u1 (dd :: (tl ++ (w1 ++ (mid ++ (t2 ++ rest))))) =
            tryMatchNoSep u1 dd (tl ++ (w1 ++ (mid ++ (t2 ++ rest)))) by
          simp [tryMatchAfter, hsd]] at hnone
        cases hp2 : parseTime ((dd :: tl) ++ (σ :: (t2 ++ Z))) with
        | none => exact tryMatchNoSep_none (by rw [List.cons_append] at hp2; exact hp2)
        | some v2 =>
          exfalso
          obtain ⟨u2, r5⟩ := v2
          obtain ⟨X1, hX, hr5⟩ :=
            parseTime_cross (isSepCh_not_dig hσ) (isSepCh_ne_colon hσ) hp2
          have hu2 : IsTime u2 := (parseTime_inv hp2).1
          have hporig2 : parseTime (dd :: (tl ++ (w1 ++ (mid ++ (t2 ++ rest))))) =
              some (u2, X1 ++ (w1 ++ (mid ++ (t2 ++ rest)))) := by
            rw [← List.cons_append, hX, List.append_assoc]
            exact parseTime_of_time hu2 _
          rw [tryMatchNoSep_some hporig2] at hnone
          simp at hnone

/-- Full inversion of a successful anchored match: the input decomposes as
`t1 ++ w1 ++ mid ++ t2 ++ rest` where `w1` is whitespace and `mid` is either
empty (no separator in the source text) or a separator character followed by
more whitespace; the replacement is the two tokens joined by the preserved
separator, or by the default `'~'`. -/
theorem tryMatch_some_inv {xs r rest} (h : tryMatch xs = some (r, rest)) :
    ∃ t1 w1 mid t2 s,
      xs = t1 ++ w1 ++ mid ++ t2 ++ rest ∧
      IsTime t1 ∧ IsTime t2 ∧ (∀ c ∈ w1, isPyWs c = true) ∧
      isSepCh s = true ∧ r = t1 ++ s :: t2 ∧
      (mid = [] ∧ s = '~' ∨
        ∃ w2, mid = s :: w2 ∧ ∀ c ∈ w2, isPyWs c = true) := by
  cases hp : parseTime xs with
  | none => rw [tryMatch_parse_none hp] at h; simp at h
  | some v =>
    obtain ⟨t1, r1⟩ := v
    rw [tryMatch_parse_some hp] at h
    obtain ⟨ht1, hxs⟩ := parseTime_inv hp
    have hsplit : r1.takeWhile isPyWs ++ r1.dropWhile isPyWs = r1 :=
      List.takeWhile_append_dropWhile isPyWs r1
    have hw1 : ∀ c ∈ r1.takeWhile isPyWs, isPyWs c = true :=
      fun c hc => List.mem_takeWhile_imp hc
    cases hdw : r1.dropWhile isPyWs with
    | nil => rw [hdw] at h; simp [tryMatchAfter] at h
    | cons c r3 =>
      rw [hdw] at h
      by_cases hsc : isSepCh c
      · rw [show tryMatchAfter t1 (c :: r3) = tryMatchSep t1 c r3 by
          simp [tryMatchAfter, hsc]] at h
        cases hp2 : parseTime (r3.dropWhile isPyWs) with
        | none => rw [tryMatchSep_none hp2] at h; simp at h
        | some v2 =>
          obtain ⟨t2, r5⟩ := v2
          rw [tryMatchSep_some hp2] at h
          simp only [Option.some.injEq, Prod.mk.injEq] at h
          obtain ⟨rfl, rfl⟩ := h
          obtain ⟨ht2, hr4⟩ := parseTime_inv hp2
          have hsplit3 : r3.takeWhile isPyWs ++ r3.dropWhile isPyWs = r3 :=
            List.takeWhile_append_dropWhile isPyWs r3
          have hw2 : ∀ c' ∈ r3.takeWhile isPyWs, isPyWs c' = true :=
            fun c' hc' => List.mem_takeWhile_imp hc'
          refine ⟨t1, r1.takeWhile isPyWs, c :: r3.takeWhile isPyWs, t2, c,
            ?_, ht1, ht2, hw1, hsc, rfl, Or.inr ⟨r3.takeWhile isPyWs, rfl, hw2⟩⟩
          rw [hxs]
          have hr1eq : r1 = r1.takeWhile isPyWs ++ (c :: r3) := by rw [← hdw, hsplit]
          have hr3eq : r3 = r3.takeWhile isPyWs ++ (t2 ++ r5) := by rw [← hr4, hsplit3]
          conv_lhs => rw [hr1eq, hr3eq]
          simp
      · rw [show tryMatchAfter t1 (c :: r3) = tryMatchNoSep t1 c r3 by
          simp [tryMatchAfter, hsc]] at h
        cases hp2 : parseTime (c :: r3) with
        | none => rw [tryMatchNoSep_none hp2] at h; simp at h
        | some v2 =>
          obtain ⟨t2, r5⟩ := v2
          rw [tryMatchNoSep_some hp2] at h
          simp only [Option.some.injEq, Prod.mk.injEq] at h
          obtain ⟨rfl, rfl⟩ := h
          obtain ⟨ht2, hr4⟩ := parseTime_inv hp2
          refine ⟨t1, r1.takeWhile isPyWs, [], t2, '~',
            ?_, ht1, ht2, hw1, by decide, rfl, Or.inl ⟨rfl, rfl⟩⟩
          rw [hxs]
          have hr1eq : r1 = r1.takeWhile isPyWs ++ (c :: r3) := by rw [← hdw, hsplit]
          conv_lhs => rw [hr1eq, hr4]
          simp


/-- Positions at which the scan found no match still find no match after
the remainder of the text is normalized. -/
theorem tryMatch_none_normTR :
    ∀ n cs, cs.length ≤ n → ∀ pre : List Char, pre ≠ [] →
      tryMatch (pre ++ cs) = none → tryMatch (pre ++ normTR cs) = none := by
  intro n
  induction n with
  | zero =>
    intro cs hlen pre hpre hnone
    match cs, hlen with
    | [], _ => rw [normTR_nil]; exact hnone
  | succ n ih =>
    intro cs hlen pre hpre hnone
    match cs with
    | [] => rw [normTR_nil]; exact hnone
    | c :: cs' =>
      cases htm : tryMatch (c :: cs') with
      | none =>
        rw [normTR_cons_none htm]
        have h1 : tryMatch ((pre ++ [c]) ++ cs') = none := by
          rw [List.append_assoc]; exact hnone
        have h2 := ih cs' (by simp at hlen; omega) (pre ++ [c]) (by simp) h1
        rw [List.append_assoc] at h2
        exact h2
      | some v =>
        obtain ⟨r, rest⟩ := v
        rw [normTR_cons_some htm]
        obtain ⟨t1, w1, mid, t2, s, heq, ht1, ht2, hw1, hs, hr, hmidcase⟩ :=
          tryMatch_some_inv htm
        have hmid' : mid = [] ∨ ∃ s' w2, mid = s' :: w2 ∧ isSepCh s' = true ∧
            ∀ c' ∈ w2, isPyWs c' = true := by
          rcases hmidcase with ⟨h1, _⟩ | ⟨w2, h1, h2⟩
          · exact Or.inl h1
          · exact Or.inr ⟨s, w2, h1, hs, h2⟩
        have hnone' : tryMatch (pre ++ t1 ++ w1 ++ mid ++ t2 ++ rest) = none := by
          rw [show pre ++ t1 ++ w1 ++ mid ++ t2 ++ rest =
            pre ++ (t1 ++ w1 ++ mid ++ t2 ++ rest) by simp]
          rw [← heq]
          exact hnone
        have hkey := tryMatch_none_transport (Z := normTR rest) hpre ht1 ht2 hw1
          hmid' hs hnone'
        rw [hr]
        rw [show pre ++ (t1 ++ s :: t2 ++ normTR rest) =
          pre ++ t1 ++ s :: t2 ++ normTR rest by simp]
        exact hkey

/-- The normalizer maps each replacement it just produced to itself. -/
theorem normTR_repl {t1 t2 X : List Char} {s : Char}
    (ht1 : IsTime t1) (hs : isSepCh s = true) (ht2 : IsTime t2) :
    normTR (t1 ++ s :: t2 ++ X) = t1 ++ s :: t2 ++ normTR X := by
  rw [normTR_of_some (tryMatch_repl ht1 hs ht2 X), List.append_assoc]

/-- Idempotence of the scanning normalizer. -/
theorem normTR_idem_len : ∀ n cs, cs.length ≤ n → normTR (normTR cs) = normTR cs := by
  intro n
  induction n with
  | zero =>
    intro cs hlen
    match cs, hlen with
    | [], _ => rw [normTR_nil, normTR_nil]
  | succ n ih =>
    intro cs hlen
    match cs with
    | [] => rw [normTR_nil, normTR_nil]
    | c :: cs' =>
      cases htm : tryMatch (c :: cs') with
      | none =>
        rw [normTR_cons_none htm]
        have h1 : tryMatch ([c] ++ normTR cs') = none := by
          apply tryMatch_none_normTR n cs' (by simp at hlen; omega) [c] (by simp)
          simpa using htm
        have h1' : tryMatch (c :: normTR cs') = none := by simpa using h1
        rw [normTR_cons_none h1', ih cs' (by simp at hlen; omega)]
      | some v =>
        obtain ⟨r, rest⟩ := v
        rw [normTR_cons_some htm]
        obtain ⟨t1, w1, mid, t2, s, heq, ht1, ht2, hw1, hs, hr, hmidcase⟩ :=
          tryMatch_some_inv htm
        have hrest : rest.length ≤ n := by
          have := tryMatch_some_length htm
          simp only [List.length_cons] at this
          simp only [List.length_cons] at hlen
          omega
        rw [hr, normTR_repl ht1 hs ht2, ih rest hrest, ← hr]

/-- Idempotence, stated directly. -/
theorem normTR_idem (cs : List Char) : normTR (normTR cs) = normTR cs :=
  normTR_idem_len cs.length cs (Nat.le_refl _)

/-- C1: for every text containing two adjacent clock-time tokens (`H:MM`,
1–2-digit hour) with no separator or separated only by whitespace, the
time-range normalizer replaces the pair with the two tokens joined by
exactly one default tilde (first conjunct, with the pair at the scan
position and an arbitrary continuation); if a tilde-like or dash-like
separator character is present it is preserved verbatim (second conjunct);
and re-applying the normalizer to any output is a no-op (third conjunct,
idempotence on all inputs). -/
theorem C1_time_range_normalizer :
    (∀ t1 w t2 rest : List Char, IsTime t1 → IsTime t2 →
      (∀ c ∈ w, isPyWs c = true) →
      normTR (t1 ++ w ++ t2 ++ rest) = t1 ++ '~' :: t2 ++ normTR rest) ∧
    (∀ (t1 w1 w2 t2 rest : List Char) (s : Char), IsTime t1 → IsTime t2 →
      isSepCh s = true →
      (∀ c ∈ w1, isPyWs c = true) → (∀ c ∈ w2, isPyWs c = true) →
      normTR (t1 ++ w1 ++ s :: w2 ++ t2 ++ rest) = t1 ++ s :: t2 ++ normTR rest) ∧
    (∀ s : String, _normalize_time_ranges (_normalize_time_ranges s) =
      _normalize_time_ranges s) := by
  refine ⟨?_, ?_, ?_⟩
  · intro t1 w t2 rest ht1 ht2 hw
    rw [normTR_of_some (tryMatch_nosep ht1 hw ht2 rest)]
  · intro t1 w1 w2 t2 rest s ht1 ht2 hs hw1 hw2
    rw [normTR_of_some (tryMatch_sep ht1 hw1 hs hw2 ht2 rest)]
  · intro s
    simp only [_normalize_time_ranges]
    congr 1
    exact normTR_idem s.data

/-- Witness for C1 at concrete inputs: `"10:00 10:40"` gets the default
tilde, `"09:30 – 10:15"` keeps its en-dash, and normalization of
`"10:0010:40"` is a fixed point of the normalizer. -/
theorem C1_time_range_normalizer_witness :
    IsTime "10:00".data ∧ IsTime "10:40".data ∧
    normTR ("10:00".data ++ " ".data ++ "10:40".data ++ []) =
      "10:00".data ++ '~' :: "10:40".data ++ normTR [] ∧
    normTR ("09:30".data ++ " ".data ++ '–' :: " ".data ++ "10:15".data ++ []) =
      "09:30".data ++ '–' :: "10:15".data ++ normTR [] ∧
    _normalize_time_ranges (_normalize_time_ranges "10:0010:40") =
      _normalize_time_ranges "10:0010:40" := by
  have ht1 : IsTime "10:00".data :=
    Or.inr ⟨'1', '0', '0', '0', by decide, by decide, by decide, by decide, by decide⟩
  have ht2 : IsTime "10:40".data :=
    Or.inr ⟨'1', '0', '4', '0', by decide, by decide, by decide, by decide, by decide⟩
  have ht3 : IsTime "09:30".data :=
    Or.inr ⟨'0', '9', '3', '0', by decide, by decide, by decide, by decide, by decide⟩
  have ht4 : IsTime "10:15".data :=
    Or.inr ⟨'1', '0', '1', '5', by decide, by decide, by decide, by decide, by decide⟩
  refine ⟨ht1, ht2, ?_, ?_, C1_time_range_normalizer.2.2 "10:0010:40"⟩
  · exact C1_time_range_normalizer.1 "10:00".data " ".data "10:40".data []
      ht1 ht2 (by decide)
  · exact C1_time_range_normalizer.2.1 "09:30".data " ".data " ".data "10:15".data []
      '–' ht3 ht4 (by decide) (by decide) (by decide)

/-! ### The table extractor `_extract_tables_from_html`

BeautifulSoup parsing is external; a parsed `<table>` is modelled as its
list of `<tr>` rows, each a list of already-assembled cell texts (the
link-to-markdown cell assembly of the source feeds into these strings).
The embedded function reproduces lines 124–169 of `src/utils.py`:
normalize each cell's time ranges, drop cell-less rows, skip empty tables,
pad all rows to the table's maximum column count, and emit a pipe-delimited
grid of one header line, one separator line and one line per body row. -/

/-- Python's `sep.join(parts)`. -/
def pyJoin (sep : String) : List String → String
  | [] => ""
  | [a] => a
  | a :: rest => a ++ sep ++ pyJoin sep rest

/-- Rows of one table after cell normalization, with cell-less `<tr>`s
dropped (`if row: rows.append(row)`). -/
def tableRows (trList : List (List String)) : List (List String) :=
  (trList.map (fun tr => tr.map _normalize_time_ranges)).filter (fun r => !r.isEmpty)

/-- `max(len(r) for r in rows)` (the rows passed in are never empty). -/
def maxColsOf (rows : List (List String)) : Nat :=
  (rows.map List.length).foldl max 0

/-- `r + [""] * (max_cols - len(r))`. -/
def padRow (maxCols : Nat) (r : List String) : List String :=
  r ++ List.replicate (maxCols - r.length) ""

/-- `"| " + " | ".join(row) + " |"`. -/
def mkRowLine (r : List String) : String := "| " ++ pyJoin " | " r ++ " |"

/-- `"| " + " | ".join(["---"] * max_cols) + " |"`. -/
def sepRowLine (maxCols : Nat) : String :=
  "| " ++ pyJoin " | " (List.replicate maxCols "---") ++ " |"

/-- The grid lines emitted for one table, or `none` when the table has no
non-empty rows (`continue`). -/
def tableBlockLines (trList : List (List String)) : Option (List String) :=
  match tableRows trList with
  | [] => none
  | r0 :: rbody =>
    let maxCols := maxColsOf (r0 :: rbody)
    some (mkRowLine (padRow maxCols r0) :: sepRowLine maxCols ::
      rbody.map (fun r => mkRowLine (padRow maxCols r)))

/-- `_extract_tables_from_html` from `src/utils.py`, over parsed tables:
at most `maxTables` tables, block strings joined by a blank line. -/
def _extract_tables_from_html (tables : List (List (List String)))
    (maxTables : Nat) : String :=
  if tables.isEmpty then ""
  else pyJoin "\n\n"
    ((tables.take maxTables).filterMap (fun t => (tableBlockLines t).map (pyJoin "\n")))

theorem foldl_max_init_le (l : List Nat) (a : Nat) : a ≤ l.foldl max a := by
  induction l generalizing a with
  | nil => exact Nat.le_refl a
  | cons x l ih =>
    exact Nat.le_trans (Nat.le_max_left a x) (ih (max a x))

theorem mem_le_foldl_max {x : Nat} {l : List Nat} (hx : x ∈ l) (a : Nat) :
    x ≤ l.foldl max a := by
  induction l generalizing a with
  | nil => simp at hx
  | cons y l ih =>
    rcases List.mem_cons.1 hx with rfl | hx'
    · exact Nat.le_trans (Nat.le_max_right a x) (foldl_max_init_le l (max a x))
    · exact ih hx' (max a y)

theorem padRow_length {maxCols : Nat} {r : List String}
    (h : r.length ≤ maxCols) : (padRow maxCols r).length = maxCols := by
  simp only [padRow, List.length_append, List.length_replicate]
  omega

/-- C2: for every table whose parsed rows have unequal cell counts, every
row is padded with empty cells to the maximum row width of that table
before being emitted, and the emitted pipe-delimited grid has exactly
`body-rows + 2` lines: one header line (the first parsed row), one
separator line, and one line per remaining (body) row. -/
theorem C2_table_padding (trList : List (List String))
    (hne : ∃ r1 ∈ tableRows trList, ∃ r2 ∈ tableRows trList,
      r1.length ≠ r2.length) :
    ∃ r0 rbody lines,
      tableRows trList = r0 :: rbody ∧
      tableBlockLines trList = some lines ∧
      lines.length = rbody.length + 2 ∧
      lines = mkRowLine (padRow (maxColsOf (r0 :: rbody)) r0) ::
        sepRowLine (maxColsOf (r0 :: rbody)) ::
        rbody.map (fun r => mkRowLine (padRow (maxColsOf (r0 :: rbody)) r)) ∧
      ∀ r ∈ tableRows trList,
        (padRow (maxColsOf (r0 :: rbody)) r).length = maxColsOf (r0 :: rbody) := by
  obtain ⟨r1, hr1, -⟩ := hne
  cases hrows : tableRows trList with
  | nil => rw [hrows] at hr1; simp at hr1
  | cons r0 rbody =>
    refine ⟨r0, rbody, _, rfl, ?_, ?_, rfl, ?_⟩
    · rw [tableBlockLines, hrows]
    · simp
    · intro r hr
      apply padRow_length
      apply mem_le_foldl_max
      exact List.mem_map_of_mem List.length hr

/-- Witness for C2: a two-row table with 2 and 1 cells is padded to width 2
and emits 3 = 1 + 2 grid lines. -/
theorem C2_table_padding_witness :
    (∃ r1 ∈ tableRows [["a", "b"], ["c"]], ∃ r2 ∈ tableRows [["a", "b"], ["c"]],
      r1.length ≠ r2.length) ∧
    ∃ r0 rbody lines,
      tableRows [["a", "b"], ["c"]] = r0 :: rbody ∧
      tableBlockLines [["a", "b"], ["c"]] = some lines ∧
      lines.length = rbody.length + 2 ∧
      lines = mkRowLine (padRow (maxColsOf (r0 :: rbody)) r0) ::
        sepRowLine (maxColsOf (r0 :: rbody)) ::
        rbody.map (fun r => mkRowLine (padRow (maxColsOf (r0 :: rbody)) r)) ∧
      ∀ r ∈ tableRows [["a", "b"], ["c"]],
        (padRow (maxColsOf (r0 :: rbody)) r).length = maxColsOf (r0 :: rbody) := by
  have hne : ∃ r1 ∈ tableRows [["a", "b"], ["c"]],
      ∃ r2 ∈ tableRows [["a", "b"], ["c"]], r1.length ≠ r2.length := by
    refine ⟨["a", "b"], ?_, ["c"], ?_, by decide⟩ <;> decide
  exact ⟨hne, C2_table_padding [["a", "b"], ["c"]] hne⟩

/-! ### Page directory and query matcher (`LIVE_PAGES`, `_guess_live_key`,
`_match_live_keys`)

`difflib.SequenceMatcher(None, a, b).ratio()` is Python stdlib and is
modelled by an abstract similarity function `simScore`; everything the
source adds around it (whitespace stripping, the containment-forced 0.99,
the strict-improvement argmax fold, the 0.6 cutoff, substring matching and
the time/fee synonym fallback) is embedded from `src/utils.py`. -/

def MUSEUM_BASE_URL : String := "https://www.sciencecenter.go.kr"

def LIVE_PAGES : List (String × String) := [
  ("홈페이지", MUSEUM_BASE_URL ++ "/"),
  ("공지사항", MUSEUM_BASE_URL ++ "/scipia/introduce/notice"),
  ("이용안내", MUSEUM_BASE_URL ++ "/scipia/guide/totalGuide"),
  ("주차안내", MUSEUM_BASE_URL ++ "/scipia/introduce/parking"),
  ("연간회원", MUSEUM_BASE_URL ++ "/scipia/guide/paidMember"),
  ("단체관람", MUSEUM_BASE_URL ++ "/scipia/guide/groupTours"),
  ("추천관람코스", MUSEUM_BASE_URL ++ "/scipia/guide/recommendCourse"),
  ("관람객대피", MUSEUM_BASE_URL ++ "/scipia/communication/safety"),
  ("안전사고수칙", MUSEUM_BASE_URL ++ "/scipia/communication/safetyRule"),
  ("편의시설", MUSEUM_BASE_URL ++ "/scipia/guide/convenience"),
  ("식음시설", MUSEUM_BASE_URL ++ "/scipia/guide/food"),
  ("교통안내", MUSEUM_BASE_URL ++ "/scipia/introduce/location"),
  ("행사", MUSEUM_BASE_URL ++ "/scipia/events/list/culture"),
  ("공연", MUSEUM_BASE_URL ++ "/scipia/events/list/play"),
  ("천체투영관 소개", MUSEUM_BASE_URL ++ "/scipia/display/planetarium"),
  ("천체투영관 운영", MUSEUM_BASE_URL ++ "/scipia/introduce/notice/24281"),
  ("천체투영관 프로그램", MUSEUM_BASE_URL ++ "/scipia/introduce/notice/24281"),
  ("천체투영관 예약", MUSEUM_BASE_URL ++ "/scipia/schedules?ACADEMY_CD=ACD007&CLASS_CD=CL7001"),
  ("천체투영관 단체", MUSEUM_BASE_URL ++ "/scipia/introduce/notice/23441"),
  ("천문대 소개", MUSEUM_BASE_URL ++ "/scipia/display/planetarium/observation"),
  ("천문대 운영", MUSEUM_BASE_URL ++ "/scipia/introduce/notice/25098"),
  ("천문대 프로그램", MUSEUM_BASE_URL ++ "/scipia/introduce/notice/25098"),
  ("천문대 예약", MUSEUM_BASE_URL ++ "/scipia/schedules?ACADEMY_CD=ACD007&CLASS_CD=CL7003"),
  ("천문대 단체", MUSEUM_BASE_URL ++ "/scipia/introduce/notice/25100"),
  ("스페이스 아날로그 프로그램", MUSEUM_BASE_URL ++ "/scipia/display/planetarium/spaceAnalog"),
  ("스페이스 아날로그 예약", MUSEUM_BASE_URL ++ "/scipia/schedules?ACADEMY_CD=ACD007&CLASS_CD=CL7002"),
  ("스페이스 아날로그 단체", MUSEUM_BASE_URL ++ "/scipia/introduce/notice/24400"),
  ("자연사관", MUSEUM_BASE_URL ++ "/scipia/display/mainBuilding/naturalHistory"),
  ("첨단기술관", MUSEUM_BASE_URL ++ "/scipia/display/mainBuilding/advancedTechnology2"),
  ("과학탐구관", MUSEUM_BASE_URL ++ "/scipia/display/mainBuilding/basicScience"),
  ("한국문명관", MUSEUM_BASE_URL ++ "/scipia/display/mainBuilding/traditionalSciences"),
  ("미래상상SF관", MUSEUM_BASE_URL ++ "/scipia/display/mainBuilding/sfSpecial"),
  ("유아체험관", MUSEUM_BASE_URL ++ "/scipia/display/mainBuilding/kidsPlayground"),
  ("명예의전당", MUSEUM_BASE_URL ++ "/scipia/display/frontier/hallOfFame"),
  ("특별기획전", MUSEUM_BASE_URL ++ "/scipia/events/list/exhibition#n"),
  ("체험전시물 예약", MUSEUM_BASE_URL ++ "/scipia/display/displayExperience"),
  ("전시장 프로그램 안내", MUSEUM_BASE_URL ++ "/scipia/introduce/notice/25399"),
  ("전시해설", MUSEUM_BASE_URL ++ "/scipia/display/displayExplanation"),
  ("곤충생태관", MUSEUM_BASE_URL ++ "/scipia/display/outdoorEcological/insectarium"),
  ("생태공원", MUSEUM_BASE_URL ++ "/scipia/display/outdoorEcological/ecoPark"),
  ("공룡공원", MUSEUM_BASE_URL ++ "/scipia/display/outdoorEcological/dinosaurAndHistory"),
  ("옥외전시장", MUSEUM_BASE_URL ++ "/scipia/display/outdoorEcological/outdoor"),
  ("인사말", MUSEUM_BASE_URL ++ "/scipia/introduce/chief"),
  ("연혁", MUSEUM_BASE_URL ++ "/scipia/introduce/history"),
  ("조직 및 연혁", MUSEUM_BASE_URL ++ "/scipia/introduce/organization"),
  ("주변시설", MUSEUM_BASE_URL ++ "/scipia/introduce/surround"),
  ("유관기관", MUSEUM_BASE_URL ++ "/scipia/introduce/familySites"),
  ("수도권과학관", MUSEUM_BASE_URL ++ "/scipia/introduce/capitalScience"),
  ("보도자료", MUSEUM_BASE_URL ++ "/scipia/introduce/report"),
  ("현장스케치", MUSEUM_BASE_URL ++ "/scipia/introduce/sketch"),
  ("채용공고", MUSEUM_BASE_URL ++ "/scipia/introduce/recruit"),
  ("일반자료실", MUSEUM_BASE_URL ++ "/scipia/communication/normalLibrary"),
  ("규정자료실", MUSEUM_BASE_URL ++ "/scipia/communication/roleLibrary"),
  ("자주묻는질문", MUSEUM_BASE_URL ++ "/scipia/communication/faq/faqTotal"),
  ("의견수렴", MUSEUM_BASE_URL ++ "/scipia/communication/opinions"),
  ("과학자료실", MUSEUM_BASE_URL ++ "/scipia/references"),
  ("자원봉사", MUSEUM_BASE_URL ++ "/scipia/schedules/voluntary")]

def time_fee_keywords : List String :=
  ["운영시간", "관람시간", "개관시간", "폐관시간", "관람요금", "관람료", "입장료", "요금", "관람일", "운영일", "개관일", "휴관일", "휴무일", "휴관", "휴무", "운영일정", "개관일정"]

def liveKeys : List String := LIVE_PAGES.map Prod.fst

/-- `key.replace(" ", "")`. -/
def stripSpaces (s : String) : String := ⟨s.data.filter (fun c => c ≠ ' ')⟩

/-- `re.sub(r"\s+", "", s)`: every whitespace character removed. -/
def stripAllWs (s : String) : String := ⟨s.data.filter (fun c => !isPyWs c)⟩

/-- Python's substring test `needle in hay`, on character lists. -/
def strInL (n : List Char) : List Char → Bool
  | [] => n.isPrefixOf []
  | c :: t => n.isPrefixOf (c :: t) || strInL n t

/-- Python's substring test `needle in hay`. -/
def strIn (needle hay : String) : Bool := strInL needle.data hay.data

/-- The similarity score the source computes for one key: the raw
`SequenceMatcher` ratio, forced up to `0.99` when either whitespace-stripped
string contains the other. -/
def adjScore (simScore : String → String → ℚ) (q key : String) : ℚ :=
  let key_norm := stripSpaces key
  let score := simScore key_norm q
  if strIn key_norm q || strIn q key_norm then max score (99/100) else score

/-- The strict-improvement argmax fold of `_guess_live_key`
(`if score > best_score: best_score, best_key = score, key`). -/
def bestFold (simScore : String → String → ℚ) (q : String) :
    List String → Option String × ℚ → Option String × ℚ
  | [], acc => acc
  | key :: ks, (bestKey, bestScore) =>
    if bestScore < adjScore simScore q key then
      bestFold simScore q ks (some key, adjScore simScore q key)
    else
      bestFold simScore q ks (bestKey, bestScore)

/-- `_guess_live_key` from `src/utils.py` (cutoff fixed at its default
`0.6`; `if best_key` is the `Option` match, every directory key being a
non-empty string). -/
def _guess_live_key (simScore : String → String → ℚ) (question : String) :
    Option String :=
  let q := stripAllWs question
  match bestFold simScore q liveKeys (none, 0) with
  | (some bestKey, bestScore) => if 3/5 ≤ bestScore then some bestKey else none
  | (none, _) => none

/-- The primary match set: directory keys whose space-stripped label is a
substring of the whitespace-stripped question, in directory order. -/
def primaryMatches (question : String) : List String :=
  liveKeys.filter (fun key => strIn (stripSpaces key) (stripAllWs question))

/-- The time/fee synonym fallback: append `"이용안내"` when the stripped
question contains one of the fixed keywords and it is not yet matched. -/
def feeAppend (question : String) (matched : List String) : List String :=
  if time_fee_keywords.any (fun kw => strIn kw (stripAllWs question)) &&
      !(matched.contains "이용안내") then
    matched ++ ["이용안내"]
  else matched

/-- `_match_live_keys` from `src/utils.py` (the `st.info` disambiguation
notice is UI output and has no effect on the returned list). -/
def _match_live_keys (simScore : String → String → ℚ) (question : String) :
    List String :=
  feeAppend question
    (if (primaryMatches question).isEmpty then
      match _guess_live_key simScore question with
      | some g => [g]
      | none => []
    else primaryMatches question)

theorem feeAppend_exists (question : String) (matched : List String) :
    ∃ fee, (fee = [] ∨ fee = ["이용안내"]) ∧
      feeAppend question matched = matched ++ fee := by
  unfold feeAppend
  split_ifs with h
  · exact ⟨["이용안내"], Or.inr rfl, rfl⟩
  · exact ⟨[], Or.inl rfl, by simp⟩

/-- C3: every directory label whose space-stripped form is a literal
substring of the whitespace-stripped query is included in the match result,
and the result begins with exactly the list of such labels in directory
iteration order (so fuzzy matching of other labels cannot displace them). -/
theorem C3_substring_matches (simScore : String → String → ℚ)
    (question : String) :
    (∃ suffix, _match_live_keys simScore question =
      primaryMatches question ++ suffix) ∧
    ∀ key ∈ liveKeys,
      strIn (stripSpaces key) (stripAllWs question) = true →
      key ∈ _match_live_keys simScore question := by
  constructor
  · unfold _match_live_keys
    by_cases hM : (primaryMatches question).isEmpty
    · rw [if_pos hM]
      rw [List.isEmpty_iff] at hM
      rw [hM]
      refine ⟨feeAppend question
        (match _guess_live_key simScore question with
          | some g => [g]
          | none => []), ?_⟩
      simp
    · rw [if_neg hM]
      obtain ⟨fee, -, hfee⟩ := feeAppend_exists question (primaryMatches question)
      exact ⟨fee, hfee⟩
  · intro key hkey hsub
    have hmem : key ∈ primaryMatches question := by
      rw [primaryMatches, List.mem_filter]
      exact ⟨hkey, hsub⟩
    unfold _match_live_keys
    by_cases hM : (primaryMatches question).isEmpty
    · rw [List.isEmpty_iff] at hM
      rw [hM] at hmem
      simp at hmem
    · rw [if_neg hM]
      obtain ⟨fee, -, hfee⟩ := feeAppend_exists question (primaryMatches question)
      rw [hfee]
      exact List.mem_append_left fee hmem

/-- Witness for C3: the query `"주차안내 알려줘"` contains the label
`"주차안내"`, which therefore appears in the match result. -/
theorem C3_substring_matches_witness :
    "주차안내" ∈ liveKeys ∧
    strIn (stripSpaces "주차안내") (stripAllWs "주차안내 알려줘") = true ∧
    "주차안내" ∈ _match_live_keys (fun _ _ => 0) "주차안내 알려줘" := by
  refine ⟨by decide, by decide, ?_⟩
  exact (C3_substring_matches (fun _ _ => 0) "주차안내 알려줘").2
    "주차안내" (by decide) (by decide)

/-- Behaviour of the strict-improvement argmax fold: either no key beats
the initial score (accumulator unchanged), or the result is the first key
attaining the running maximum: strictly above everything before it and at
least everything after it. -/
theorem bestFold_spec (simScore : String → String → ℚ) (q : String) :
    ∀ (ks : List String) (bk : Option String) (bs : ℚ),
      (bestFold simScore q ks (bk, bs) = (bk, bs) ∧
        ∀ k ∈ ks, adjScore simScore q k ≤ bs) ∨
      (∃ pre g post, ks = pre ++ g :: post ∧
        bestFold simScore q ks (bk, bs) = (some g, adjScore simScore q g) ∧
        bs < adjScore simScore q g ∧
        (∀ k ∈ pre, adjScore simScore q k < adjScore simScore q g) ∧
        (∀ k ∈ post, adjScore simScore q k ≤ adjScore simScore q g)) := by
  intro ks
  induction ks with
  | nil =>
    intro bk bs
    left
    exact ⟨rfl, by simp⟩
  | cons key ks ih =>
    intro bk bs
    by_cases hlt : bs < adjScore simScore q key
    · rw [show bestFold simScore q (key :: ks) (bk, bs) =
        bestFold simScore q ks (some key, adjScore simScore q key) by
        rw [bestFold, if_pos hlt]]
      rcases ih (some key) (adjScore simScore q key) with ⟨heq, hall⟩ |
        ⟨pre, g, post, hks, heq, hbs, hpre, hpost⟩
      · right
        exact ⟨[], key, ks, rfl, heq, hlt, by simp, hall⟩
      · right
        refine ⟨key :: pre, g, post, by rw [hks]; simp, heq, lt_trans hlt hbs, ?_, hpost⟩
        intro k hk
        rcases List.mem_cons.1 hk with rfl | hk'
        · exact hbs
        · exact hpre k hk'
    · rw [show bestFold simScore q (key :: ks) (bk, bs) =
        bestFold simScore q ks (bk, bs) by rw [bestFold, if_neg hlt]]
      rcases ih bk bs with ⟨heq, hall⟩ | ⟨pre, g, post, hks, heq, hbs, hpre, hpost⟩
      · left
        refine ⟨heq, ?_⟩
        intro k hk
        rcases List.mem_cons.1 hk with rfl | hk'
        · exact le_of_not_lt hlt
        · exact hall k hk'
      · right
        refine ⟨key :: pre, g, post, by rw [hks]; simp, heq, hbs, ?_, hpost⟩
        intro k hk
        rcases List.mem_cons.1 hk with rfl | hk'
        · exact lt_of_le_of_lt (le_of_not_lt hlt) hbs
        · exact hpre k hk'

theorem guess_eq_fold (simScore : String → String → ℚ) (question : String) :
    _guess_live_key simScore question =
      match bestFold simScore (stripAllWs question) liveKeys (none, 0) with
      | (some bk, bs) => if 3/5 ≤ bs then some bk else none
      | (none, _) => none := rfl

/-- C8: for a query with an empty primary (substring) match set, the
matcher appends at most one guessed label — the first key attaining the
maximal containment-forced similarity score — and only when that best score
reaches the `0.6` threshold; `_guess_live_key` returns `none` exactly when
every key scores below the threshold; and a query with a non-empty primary
set gets the primary matches (plus at most the synonym fallback) and never
a guessed one. -/
theorem C8_guess_selection (simScore : String → String → ℚ) (question : String) :
    (primaryMatches question ≠ [] →
      ∃ fee, (fee = [] ∨ fee = ["이용안내"]) ∧
        _match_live_keys simScore question = primaryMatches question ++ fee) ∧
    (primaryMatches question = [] →
      (∃ fee, (fee = [] ∨ fee = ["이용안내"]) ∧
        _match_live_keys simScore question =
          (match _guess_live_key simScore question with
            | some g => [g]
            | none => []) ++ fee) ∧
      (_guess_live_key simScore question = none ↔
        ∀ k ∈ liveKeys,
          adjScore simScore (stripAllWs question) k < 3/5) ∧
      (∀ g, _guess_live_key simScore question = some g →
        g ∈ liveKeys ∧
        3/5 ≤ adjScore simScore (stripAllWs question) g ∧
        (∀ k ∈ liveKeys, adjScore simScore (stripAllWs question) k ≤
          adjScore simScore (stripAllWs question) g) ∧
        ∃ pre post, liveKeys = pre ++ g :: post ∧
          ∀ k ∈ pre, adjScore simScore (stripAllWs question) k <
            adjScore simScore (stripAllWs question) g)) := by
  constructor
  · intro hne
    unfold _match_live_keys
    rw [if_neg (by simpa [List.isEmpty_iff] using hne)]
    exact feeAppend_exists question _
  · intro hM
    refine ⟨?_, ?_, ?_⟩
    · unfold _match_live_keys
      rw [if_pos (by simp [hM])]
      exact feeAppend_exists question _
    · rcases bestFold_spec simScore (stripAllWs question) liveKeys none 0 with
        ⟨heq, hall⟩ | ⟨pre, g, post, hks, heq, hbs, hpre, hpost⟩
      · have hg : _guess_live_key simScore question = none := by
          rw [guess_eq_fold, heq]
        rw [hg]
        constructor
        · intro _ k hk
          exact lt_of_le_of_lt (hall k hk) (by norm_num)
        · intro _
          rfl
      · have hg : _guess_live_key simScore question =
            if 3/5 ≤ adjScore simScore (stripAllWs question) g then some g
            else none := by
          rw [guess_eq_fold, heq]
        rw [hg]
        by_cases hcut : 3/5 ≤ adjScore simScore (stripAllWs question) g
        · rw [if_pos hcut]
          constructor
          · intro habs
            cases habs
          · intro hall'
            have hgmem : g ∈ liveKeys := by
              rw [hks]
              exact List.mem_append_right pre (List.mem_cons_self g post)
            exact absurd hcut (not_le_of_lt (hall' g hgmem))
        · rw [if_neg hcut]
          constructor
          · intro _ k hk
            rw [hks] at hk
            rcases List.mem_append.1 hk with hk' | hk'
            · exact lt_of_lt_of_le (hpre k hk') (le_of_not_lt (fun h =>
                hcut (le_of_lt (lt_of_le_of_lt (by norm_num) h))))
            · rcases List.mem_cons.1 hk' with rfl | hk''
              · exact lt_of_not_le hcut
              · exact lt_of_le_of_lt (hpost k hk'') (lt_of_not_le hcut)
          · intro _
            rfl
    · intro g hg
      rcases bestFold_spec simScore (stripAllWs question) liveKeys none 0 with
        ⟨heq, hall⟩ | ⟨pre, g', post, hks, heq, hbs, hpre, hpost⟩
      · rw [guess_eq_fold, heq] at hg
        have hg2 : (none : Option String) = some g := hg
        cases hg2
      · rw [guess_eq_fold, heq] at hg
        have hg2 : (if 3/5 ≤ adjScore simScore (stripAllWs question) g' then
            some g' else none) = some g := hg
        by_cases hcut : 3/5 ≤ adjScore simScore (stripAllWs question) g'
        · rw [if_pos hcut] at hg2
          cases hg2
          have hgmem : g ∈ liveKeys := by
            rw [hks]
            exact List.mem_append_right pre (List.mem_cons_self g post)
          refine ⟨hgmem, hcut, ?_, pre, post, hks, hpre⟩
          intro k hk
          rw [hks] at hk
          rcases List.mem_append.1 hk with hk' | hk'
          · exact le_of_lt (hpre k hk')
          · rcases List.mem_cons.1 hk' with rfl | hk''
            · exact le_refl _
            · exact hpost k hk''
        · rw [if_neg hcut] at hg2
          cases hg2

/-- Witness for C8: the query `"x"` matches no label as a substring, and
with the zero similarity function the guess is `none` exactly because all
scores fall below the threshold. -/
theorem C8_guess_selection_witness :
    primaryMatches "x" = [] ∧
    (_guess_live_key (fun _ _ => 0) "x" = none ↔
      ∀ k ∈ liveKeys, adjScore (fun _ _ => 0) (stripAllWs "x") k < 3/5) := by
  have hM : primaryMatches "x" = [] := by decide
  exact ⟨hM, ((C8_guess_selection (fun _ _ => 0) "x").2 hM).2.1⟩

theorem strInL_nil (h : List Char) : strInL [] h = true := by
  cases h <;> simp [strInL, List.isPrefixOf]

theorem bestFold_const (simScore : String → String → ℚ) (q : String) :
    ∀ (ks : List String) (g : String) (v : ℚ),
      (∀ k ∈ ks, adjScore simScore q k = v) →
      bestFold simScore q ks (some g, v) = (some g, v) := by
  intro ks
  induction ks with
  | nil => intro g v _; rfl
  | cons key ks ih =>
    intro g v hall
    rw [bestFold, if_neg (by
      rw [hall key (List.mem_cons_self key ks)]
      exact lt_irrefl v)]
    exact ih g v (fun k hk => hall k (List.mem_cons_of_mem key hk))

/-- C10: an empty or all-whitespace query strips to the empty string; the
empty string is a substring of every label, so every key's score is forced
to `0.99` (the raw `difflib` ratio against an empty second string being
`0`, taken as the hypothesis `hsim`), the strict-improvement fold keeps the
first key, `0.99` clears the `0.6` cutoff, no synonym keyword occurs in an
empty query, and the result is exactly the guessed singleton
`["홈페이지"]`. -/
theorem C10_empty_query (simScore : String → String → ℚ) (question : String)
    (hq : stripAllWs question = "")
    (hsim : ∀ a : String, a ≠ "" → simScore a "" = 0) :
    _match_live_keys simScore question = ["홈페이지"] := by
  have hprim : primaryMatches question = [] := by
    simp only [primaryMatches, hq]
    decide
  have hadj : ∀ k ∈ liveKeys, adjScore simScore "" k = 99/100 := by
    intro k hk
    have hkn : stripSpaces k ≠ "" := by
      have hall : ∀ k' ∈ liveKeys, stripSpaces k' ≠ "" := by decide
      exact hall k hk
    have hcond : (strIn (stripSpaces k) "" || strIn "" (stripSpaces k)) = true := by
      rw [Bool.or_eq_true]
      right
      exact strInL_nil _
    simp only [adjScore]
    rw [hsim (stripSpaces k) hkn, if_pos hcond, max_eq_right (by norm_num)]
  have hlk : liveKeys = "홈페이지" :: liveKeys.tail := by rfl
  have hmem0 : "홈페이지" ∈ liveKeys := by rw [hlk]; exact List.mem_cons_self _ _
  have hfold : bestFold simScore "" liveKeys (none, 0) = (some "홈페이지", 99/100) := by
    rw [hlk, bestFold, if_pos (by
      rw [hadj "홈페이지" hmem0]
      norm_num)]
    rw [hadj "홈페이지" hmem0]
    apply bestFold_const
    intro k hk
    exact hadj k (by rw [hlk]; exact List.mem_cons_of_mem _ hk)
  have hguess : _guess_live_key simScore question = some "홈페이지" := by
    have h1 : _guess_live_key simScore question =
        if 3/5 ≤ (99/100 : ℚ) then some "홈페이지" else none := by
      rw [guess_eq_fold, hq, hfold]
    rw [h1, if_pos (by norm_num)]
  unfold _match_live_keys
  rw [hprim, hguess]
  show feeAppend question ["홈페이지"] = ["홈페이지"]
  unfold feeAppend
  rw [if_neg (by
    rw [hq]
    decide)]

/-- Witness for C10: the all-whitespace query `" "` with a similarity
function that is zero against the empty string yields exactly the first
directory label. -/
theorem C10_empty_query_witness :
    stripAllWs " " = "" ∧
    _match_live_keys (fun _ _ => 0) " " = ["홈페이지"] :=
  ⟨by decide, C10_empty_query (fun _ _ => 0) " " (by decide) (fun a _ => rfl)⟩

/-! ### Parsed-page model, fact formatter and title inference

BeautifulSoup is external; `HtmlDoc` carries exactly the data the source
reads from a (cleaned) soup: the block elements in document order with
their `stripped_strings`, `soup.title.string`, the parsed tables and the
`img` `src` attributes.  HTML parsing itself is an abstract function
`parse : String → HtmlDoc` wherever the source calls BeautifulSoup. -/

structure HtmlElem where
  tag : String
  texts : List String
deriving DecidableEq

structure HtmlDoc where
  elems : List HtmlElem
  titleText : Option String
  tables : List (List (List String))
  imgSrcs : List (Option String)
deriving DecidableEq

/-- `" ".join(el.stripped_strings)`. -/
def elemText (e : HtmlElem) : String := pyJoin " " e.texts

/-- Python `s.strip()` (both ends, same whitespace class). -/
def pyStrip (s : String) : String :=
  ⟨((s.data.dropWhile isPyWs).reverse.dropWhile isPyWs).reverse⟩

/-- One step of title inference: `soup.find(tag)` and its non-empty-text
check (`if el and el.get_text(strip=True)`). -/
def headingTitle (doc : HtmlDoc) (tag : String) : Option String :=
  match doc.elems.find? (fun e => e.tag = tag) with
  | some e => if elemText e = "" then none else some (elemText e)
  | none => none

/-- `_extract_page_title` from `src/utils.py`: first `h1`, else first `h2`,
else first `h3` (each only when its text is non-empty), else the stripped
`<title>` string, else the empty string. -/
def _extract_page_title (doc : HtmlDoc) : String :=
  match headingTitle doc "h1" with
  | some t => t
  | none =>
    match headingTitle doc "h2" with
    | some t => t
    | none =>
      match headingTitle doc "h3" with
      | some t => t
      | none =>
        match doc.titleText with
        | some s => if s = "" then "" else pyStrip s
        | none => ""

/-- Image URL collection: skip empty `src`, resolve root-relative paths
against the site origin, deduplicate keeping first occurrences. -/
def imageUrls (srcs : List (Option String)) : List String :=
  srcs.foldl (fun acc os =>
    let src := pyStrip (os.getD "")
    if src = "" then acc
    else
      let src := if src.startsWith "/" then MUSEUM_BASE_URL ++ src else src
      if src ∈ acc then acc else acc ++ [src]) []

/-- The tags `_html_to_facts` walks (`find_all(["h1".."h4","p","li"])`). -/
def blockTags : List String := ["h1", "h2", "h3", "h4", "p", "li"]

/-- One emitted fact line: bullet for list items, markdown heading marker
for `h1`–`h4` (already clamped), plain text otherwise. -/
def factLine (tag text : String) : String :=
  if tag = "li" then "- " ++ text
  else if tag = "h1" then "# " ++ text
  else if tag = "h2" then "## " ++ text
  else if tag = "h3" then "### " ++ text
  else if tag = "h4" then "#### " ++ text
  else text

/-- The text lines of `_html_to_facts`: block elements with non-empty
text, time-normalized and prefixed. -/
def factLines (doc : HtmlDoc) : List String :=
  doc.elems.filterMap (fun e =>
    if e.tag ∈ blockTags then
      if elemText e = "" then none
      else some (factLine e.tag (_normalize_time_ranges (elemText e)))
    else none)

/-- The markdown tables of one document. -/
def tablesMdOf (doc : HtmlDoc) : String := _extract_tables_from_html doc.tables 10

/-- `bool(tables_md or image_urls)` of
`_extract_tables_and_images_for_display`. -/
def hasRich (doc : HtmlDoc) : Bool :=
  !(tablesMdOf doc = "") || !(imageUrls doc.imgSrcs).isEmpty

/-- The fixed placeholder returned when no section has content. -/
def NOTHING_FOUND : String := "이 페이지에서 텍스트나 표를 찾지 못했습니다."

/-- The `parts` list of `_html_to_facts`: text, table and image sections,
each present only when non-empty. -/
def factParts (doc : HtmlDoc) : List String :=
  (if pyJoin "\n" (factLines doc) ≠ "" then
    ["### 텍스트\n" ++ pyJoin "\n" (factLines doc)] else []) ++
  (if tablesMdOf doc ≠ "" then ["### 표\n" ++ tablesMdOf doc] else []) ++
  (if imageUrls doc.imgSrcs ≠ [] then
    ["### 이미지 URL\n" ++ pyJoin "\n" (imageUrls doc.imgSrcs)] else [])

/-- `_html_to_facts` from `src/utils.py`: the sections joined by blank
lines; the fixed placeholder when all three are empty. -/
def _html_to_facts (doc : HtmlDoc) : String :=
  if factParts doc = [] then NOTHING_FOUND
  else pyJoin "\n\n" (factParts doc)

/-! ### JSON model and the page fetcher `_fetch_page`

`requests` responses are abstracted by a `Network` record; a Python JSON
value is the `PyVal` tree.  `_find_html_with_table` recurses through
nested mappings and sequences for the first string containing `"<table"`
(case-insensitive); the recursion is driven by a fuel argument instantiated
with `sizeOf`, which strictly bounds the nesting depth, so the fuel never
runs out and the definition computes. -/

inductive PyVal where
  | str (s : String)
  | dict (fields : List (String × PyVal))
  | arr (elems : List PyVal)
  | other

/-- ASCII lower-casing of `str.lower()` (sufficient for the `"<table"`
marker, which is ASCII). -/
def asciiLower (c : Char) : Char :=
  if 65 ≤ c.toNat && c.toNat ≤ 90 then Char.ofNat (c.toNat + 32) else c

def strLower (s : String) : String := ⟨s.data.map asciiLower⟩

/-- `"<table" in s.lower()`. -/
def hasTableTag (s : String) : Bool := strIn "<table" (strLower s)

mutual

/-- `_find_html_with_table` from `src/utils.py`: depth-first search through
nested mappings and sequences for the first string value containing a
`<table` tag (a found string is non-empty, hence truthy). -/
def _find_html_with_table : PyVal → Option String
  | .str s => if hasTableTag s then some s else none
  | .dict fields => findTableFields fields
  | .arr elems => findTableElems elems
  | .other => none

def findTableFields : List (String × PyVal) → Option String
  | [] => none
  | (_, v) :: rest =>
    match _find_html_with_table v with
    | some h => some h
    | none => findTableFields rest

def findTableElems : List PyVal → Option String
  | [] => none
  | v :: rest =>
    match _find_html_with_table v with
    | some h => some h
    | none => findTableElems rest

end

/-- `data.get(key)` on a JSON object (keys are unique in a Python dict, so
the first binding is the binding). -/
def pyDictGet (fields : List (String × PyVal)) (key : String) : Option PyVal :=
  (fields.find? (fun p => p.1 = key)).map Prod.snd

/-- The `content`-field fallback: `isinstance(data, dict) and
isinstance(data.get("content"), str)`. -/
def contentHtml (data : PyVal) : Option String :=
  match data with
  | .dict fields =>
    match pyDictGet fields "content" with
    | some (.str s) => some s
    | _ => none
  | _ => none

/-- The HTML candidate of the board-detail branch: recursive table search
first, then the `content` field. -/
def htmlOf (data : PyVal) : Option String :=
  match _find_html_with_table data with
  | some h => some h
  | none => contentHtml data

/-- `for k in ["title", "subject", "boardTitle"]: ...` — first key present
with a string value, stripped. -/
def firstStrKey (fields : List (String × PyVal)) : List String → Option String
  | [] => none
  | k :: ks =>
    match pyDictGet fields k with
    | some (.str s) => some (pyStrip s)
    | _ => firstStrKey fields ks

def jsonTitle (data : PyVal) : Option String :=
  match data with
  | .dict fields => firstStrKey fields ["title", "subject", "boardTitle"]
  | _ => none

structure HttpResponse where
  status : Nat
  body : String
  jsonBody : Option PyVal

/-- The outbound HTTP boundary (`requests`): each call either returns a
response or raises (the `Except.error` case). -/
structure Network where
  post : String → Except String HttpResponse
  get : String → Except String HttpResponse

structure PageResult where
  source : String
  title : Option String
  facts : Option String
  has_rich : Option Bool
  error : Option String
deriving DecidableEq

/-- The uniform failure value of `_fetch_page`'s `except` clause. -/
def errorResult (url : String) : PageResult :=
  { source := url, title := none, facts := none, has_rich := none,
    error := some "페이지 로드 실패" }

/-- `resp.raise_for_status()` raises exactly for 4xx/5xx codes. -/
def statusBad (s : Nat) : Bool := 400 ≤ s && s < 600

/-- The literal of the notice-detail pattern
`re.search(r"/scipia/introduce/notice/(\d+)", url)`. -/
def noticeLit : List Char := "/scipia/introduce/notice/".data

/-- `re.search` of a literal followed by `(\d+)`: leftmost position where
the literal occurs with at least one digit after it; the group is the
maximal digit run there. -/
def litIdScan (lit : List Char) : List Char → Option (List Char)
  | [] => none
  | c :: cs =>
    if lit.isPrefixOf (c :: cs) then
      if (((c :: cs).drop lit.length).takeWhile isDig).isEmpty then
        litIdScan lit cs
      else some (((c :: cs).drop lit.length).takeWhile isDig)
    else litIdScan lit cs

/-- The notice-detail id match of `_fetch_page` (`m.group(1)`). -/
def boardIdMatch (url : String) : Option String :=
  (litIdScan noticeLit url.data).map (fun ds => ⟨ds⟩)

def buildResult (url : String) (doc : HtmlDoc) (title : String) : PageResult :=
  { source := url, title := some title, facts := some (_html_to_facts doc),
    has_rich := some (hasRich doc), error := none }

/-- The plain-GET tail of `_fetch_page` (any exception or bad status turns
into the uniform error result). -/
def plainGet (parse : String → HtmlDoc) (net : Network) (url : String) : PageResult :=
  match net.get url with
  | .error _ => errorResult url
  | .ok resp =>
    if statusBad resp.status then errorResult url
    else
      let doc := parse resp.body
      buildResult url doc (_extract_page_title doc)

/-- The board-detail POST branch of `_fetch_page`: POST the derived
endpoint, search the JSON for table-bearing HTML or the `content` field;
when usable HTML is found build the result from it (JSON title fields
first), otherwise fall through to the plain GET of the original URL. -/
def postBranch (parse : String → HtmlDoc) (net : Network) (url apiUrl : String) :
    PageResult :=
  match net.post apiUrl with
  | .error _ => errorResult url
  | .ok resp =>
    if statusBad resp.status then errorResult url
    else
      match resp.jsonBody with
      | none => errorResult url
      | some data =>
        match htmlOf data with
        | some h =>
          if h = "" then plainGet parse net url
          else
            let doc := parse h
            let title :=
              match jsonTitle data with
              | some t => if t = "" then _extract_page_title doc else t
              | none => _extract_page_title doc
            buildResult url doc title
        | none => plainGet parse net url

/-- `_fetch_page` from `src/utils.py`. -/
def _fetch_page (parse : String → HtmlDoc) (net : Network) (url : String) :
    PageResult :=
  match boardIdMatch url with
  | some boardId =>
    postBranch parse net url (MUSEUM_BASE_URL ++ "/scipia/boards/showBoard/" ++ boardId)
  | none => plainGet parse net url

theorem str_ne_empty_iff (a : String) : a ≠ "" ↔ a.data ≠ [] := by
  constructor
  · intro h hd
    exact h (by cases a; cases hd; rfl)
  · intro h he
    exact h (by rw [he])

theorem str_append_ne_left {a : String} (b : String) (ha : a ≠ "") :
    a ++ b ≠ "" := by
  rw [str_ne_empty_iff] at ha ⊢
  rw [String.data_append]
  simp [ha]

theorem pyJoin_cons_ne {sep a : String} {rest : List String} (ha : a ≠ "") :
    pyJoin sep (a :: rest) ≠ "" := by
  cases rest with
  | nil => simpa [pyJoin] using ha
  | cons b r =>
    show a ++ sep ++ pyJoin sep (b :: r) ≠ ""
    exact str_append_ne_left _ (str_append_ne_left _ ha)

theorem factParts_mem_ne (doc : HtmlDoc) : ∀ p ∈ factParts doc, p ≠ "" := by
  intro p hp
  unfold factParts at hp
  rcases List.mem_append.1 hp with h | h
  · rcases List.mem_append.1 h with h' | h'
    · by_cases hc : pyJoin "\n" (factLines doc) ≠ ""
      · rw [if_pos hc] at h'
        simp only [List.mem_singleton] at h'
        subst h'
        exact str_append_ne_left _ (by decide)
      · rw [if_neg hc] at h'
        simp at h'
    · by_cases hc : tablesMdOf doc ≠ ""
      · rw [if_pos hc] at h'
        simp only [List.mem_singleton] at h'
        subst h'
        exact str_append_ne_left _ (by decide)
      · rw [if_neg hc] at h'
        simp at h'
  · by_cases hc : imageUrls doc.imgSrcs ≠ []
    · rw [if_pos hc] at h
      simp only [List.mem_singleton] at h
      subst h
      exact str_append_ne_left _ (by decide)
    · rw [if_neg hc] at h
      simp at h

theorem html_to_facts_ne (doc : HtmlDoc) : _html_to_facts doc ≠ "" := by
  unfold _html_to_facts
  split_ifs with h
  · decide
  · cases hfp : factParts doc with
    | nil => exact absurd hfp h
    | cons p rest =>
      exact pyJoin_cons_ne (factParts_mem_ne doc p (hfp ▸ List.mem_cons_self p rest))

theorem plainGet_cases (parse : String → HtmlDoc) (net : Network) (url : String) :
    plainGet parse net url = errorResult url ∨
    ∃ doc t, plainGet parse net url = buildResult url doc t := by
  unfold plainGet
  split
  · exact Or.inl rfl
  · split
    · exact Or.inl rfl
    · exact Or.inr ⟨_, _, rfl⟩

theorem postBranch_cases (parse : String → HtmlDoc) (net : Network)
    (url apiUrl : String) :
    postBranch parse net url apiUrl = errorResult url ∨
    ∃ doc t, postBranch parse net url apiUrl = buildResult url doc t := by
  unfold postBranch
  split
  · exact Or.inl rfl
  · split
    · exact Or.inl rfl
    · split
      · exact Or.inl rfl
      · split
        · split
          · exact plainGet_cases parse net url
          · exact Or.inr ⟨_, _, rfl⟩
        · exact plainGet_cases parse net url

theorem fetch_result_cases (parse : String → HtmlDoc) (net : Network)
    (url : String) :
    _fetch_page parse net url = errorResult url ∨
    ∃ doc t, _fetch_page parse net url = buildResult url doc t := by
  unfold _fetch_page
  cases boardIdMatch url with
  | none => exact plainGet_cases parse net url
  | some boardId => exact postBranch_cases parse net url _

/-- C5: when the formatter finds no heading/paragraph/list-item text, no
table and no image, it returns exactly the fixed "nothing found"
placeholder, which is not the empty string; and consequently every
`PageResult` without an error marker carries non-empty facts. -/
theorem C5_nothing_found (doc : HtmlDoc)
    (htext : ∀ e ∈ doc.elems, e.tag ∈ blockTags → elemText e = "")
    (htab : doc.tables = [])
    (himg : doc.imgSrcs = []) :
    _html_to_facts doc = NOTHING_FOUND ∧
    NOTHING_FOUND ≠ "" ∧
    ∀ (parse : String → HtmlDoc) (net : Network) (url : String),
      (_fetch_page parse net url).error = none →
      ∃ f, (_fetch_page parse net url).facts = some f ∧ f ≠ "" := by
  have hfl : factLines doc = [] := by
    rw [factLines, List.filterMap_eq_nil_iff]
    intro e he
    by_cases ht : e.tag ∈ blockTags
    · simp [ht, htext e he ht]
    · simp [ht]
  have htb : tablesMdOf doc = "" := by
    rw [tablesMdOf, htab]
    rfl
  have him : imageUrls doc.imgSrcs = [] := by
    rw [himg]
    rfl
  have hparts : factParts doc = [] := by
    rw [factParts, hfl, htb, him]
    simp [pyJoin]
  refine ⟨by rw [_html_to_facts, hparts]; simp, by decide, ?_⟩
  intro parse net url herr
  rcases fetch_result_cases parse net url with hcase | ⟨d, t, hcase⟩
  · rw [hcase] at herr
    simp [errorResult] at herr
  · rw [hcase]
    exact ⟨_html_to_facts d, rfl, html_to_facts_ne d⟩

/-- Witness for C5: the empty document yields exactly the placeholder. -/
theorem C5_nothing_found_witness :
    _html_to_facts ⟨[], none, [], []⟩ = NOTHING_FOUND ∧ NOTHING_FOUND ≠ "" :=
  have h := C5_nothing_found ⟨[], none, [], []⟩
    (by intro e he; simp at he) rfl rfl
  ⟨h.1, h.2.1⟩

/-- A call that raises in Python: transport error, or a 4xx/5xx status
(`raise_for_status`). -/
def callThrows (r : Except String HttpResponse) : Prop :=
  match r with
  | .error _ => True
  | .ok resp => statusBad resp.status = true

/-- A POST whose handling raises before any HTML is found: it throws, or
returns OK with a body that is not JSON (`resp.json()` raises). -/
def postFails (r : Except String HttpResponse) : Prop :=
  callThrows r ∨
  ∃ resp, r = .ok resp ∧ statusBad resp.status = false ∧ resp.jsonBody = none

/-- A POST that succeeds but yields no usable HTML (no table-bearing
string, no usable `content`), so the fetch falls through to the GET. -/
def postNoHtml (r : Except String HttpResponse) : Prop :=
  ∃ resp data, r = .ok resp ∧ statusBad resp.status = false ∧
    resp.jsonBody = some data ∧ (htmlOf data = none ∨ htmlOf data = some "")

theorem plainGet_get_err {parse : String → HtmlDoc} {net : Network} {url : String}
    {e : String} (h : net.get url = .error e) :
    plainGet parse net url = errorResult url := by
  unfold plainGet
  rw [h]

theorem plainGet_get_ok {parse : String → HtmlDoc} {net : Network} {url : String}
    {resp : HttpResponse} (h : net.get url = .ok resp) :
    plainGet parse net url =
      if statusBad resp.status then errorResult url
      else buildResult url (parse resp.body)
        (_extract_page_title (parse resp.body)) := by
  unfold plainGet
  rw [h]

theorem plainGet_throws {parse : String → HtmlDoc} {net : Network} {url : String}
    (h : callThrows (net.get url)) :
    plainGet parse net url = errorResult url := by
  cases hg : net.get url with
  | error e => exact plainGet_get_err hg
  | ok resp =>
    rw [plainGet_get_ok hg]
    rw [hg] at h
    have h2 : statusBad resp.status = true := h
    rw [if_pos h2]

theorem postBranch_post_err {parse : String → HtmlDoc} {net : Network}
    {url apiUrl e : String} (h : net.post apiUrl = .error e) :
    postBranch parse net url apiUrl = errorResult url := by
  unfold postBranch
  rw [h]

theorem postBranch_post_ok {parse : String → HtmlDoc} {net : Network}
    {url apiUrl : String} {resp : HttpResponse} (h : net.post apiUrl = .ok resp) :
    postBranch parse net url apiUrl =
      if statusBad resp.status then errorResult url
      else
        match resp.jsonBody with
        | none => errorResult url
        | some data =>
          match htmlOf data with
          | some hh =>
            if hh = "" then plainGet parse net url
            else buildResult url (parse hh)
              (match jsonTitle data with
                | some t => if t = "" then _extract_page_title (parse hh) else t
                | none => _extract_page_title (parse hh))
          | none => plainGet parse net url := by
  unfold postBranch
  rw [h]

/-- C4: whenever the network call of a fetch fails, times out, returns a
non-success (4xx/5xx) status, or yields a malformed (non-JSON) response —
on whichever branch the fetch takes, including the GET fallback after a
board-detail POST produced no usable HTML — `_fetch_page` returns the
`PageResult` carrying only the source URL and the generic error marker: no
title, no facts, no rich-content flag.  No exception propagates: the
embedding is a total function into `PageResult`. -/
theorem C4_error_isolation (parse : String → HtmlDoc) (net : Network) (url : String)
    (h : match boardIdMatch url with
      | none => callThrows (net.get url)
      | some boardId =>
        postFails (net.post (MUSEUM_BASE_URL ++ "/scipia/boards/showBoard/" ++ boardId)) ∨
        (postNoHtml (net.post (MUSEUM_BASE_URL ++ "/scipia/boards/showBoard/" ++ boardId)) ∧
          callThrows (net.get url))) :
    _fetch_page parse net url = errorResult url ∧
    (errorResult url).source = url ∧
    (errorResult url).error = some "페이지 로드 실패" ∧
    (errorResult url).title = none ∧
    (errorResult url).facts = none ∧
    (errorResult url).has_rich = none := by
  refine ⟨?_, rfl, rfl, rfl, rfl, rfl⟩
  unfold _fetch_page
  cases hm : boardIdMatch url with
  | none =>
    rw [hm] at h
    have h2 : callThrows (net.get url) := h
    exact plainGet_throws h2
  | some boardId =>
    rw [hm] at h
    have h2 : postFails (net.post (MUSEUM_BASE_URL ++ "/scipia/boards/showBoard/" ++ boardId)) ∨
        (postNoHtml (net.post (MUSEUM_BASE_URL ++ "/scipia/boards/showBoard/" ++ boardId)) ∧
          callThrows (net.get url)) := h
    show postBranch parse net url (MUSEUM_BASE_URL ++ "/scipia/boards/showBoard/" ++ boardId) =
      errorResult url
    rcases h2 with hfail | ⟨hnh, hct⟩
    · rcases hfail with hthrow | ⟨resp, heq, hst, hjson⟩
      · cases hp : net.post (MUSEUM_BASE_URL ++ "/scipia/boards/showBoard/" ++ boardId) with
        | error e => exact postBranch_post_err hp
        | ok resp =>
          rw [postBranch_post_ok hp]
          rw [hp] at hthrow
          have h3 : statusBad resp.status = true := hthrow
          rw [if_pos h3]
      · rw [postBranch_post_ok heq, if_neg (by rw [hst]; simp), hjson]
    · obtain ⟨resp, data, heq, hst, hjson, hhtml⟩ := hnh
      rw [postBranch_post_ok heq, if_neg (by rw [hst]; simp), hjson]
      show (match htmlOf data with
        | some hh =>
          if hh = "" then plainGet parse net url
          else buildResult url (parse hh)
            (match jsonTitle data with
              | some t => if t = "" then _extract_page_title (parse hh) else t
              | none => _extract_page_title (parse hh))
        | none => plainGet parse net url) = errorResult url
      rcases hhtml with hh | hh
      · rw [hh]
        exact plainGet_throws hct
      · rw [hh]
        show (if ("" : String) = "" then plainGet parse net url
          else buildResult url (parse "")
            (match jsonTitle data with
              | some t => if t = "" then _extract_page_title (parse "") else t
              | none => _extract_page_title (parse ""))) = errorResult url
        rw [if_pos rfl]
        exact plainGet_throws hct

/-- Witness for C4: a URL without the notice pattern, a network whose GET
always times out. -/
theorem C4_error_isolation_witness :
    boardIdMatch "https://example.com/a" = none ∧
    _fetch_page (fun _ => ⟨[], none, [], []⟩)
      ⟨fun _ => .error "ConnectionError", fun _ => .error "Timeout"⟩
      "https://example.com/a" = errorResult "https://example.com/a" := by
  have hm : boardIdMatch "https://example.com/a" = none := by decide
  refine ⟨hm, ?_⟩
  exact (C4_error_isolation (fun _ => ⟨[], none, [], []⟩)
    ⟨fun _ => .error "ConnectionError", fun _ => .error "Timeout"⟩
    "https://example.com/a"
    (by rw [hm]; exact trivial)).1

/-- C9: when the board-detail POST of a notice-detail URL succeeds with a
JSON object containing no table-bearing string anywhere and no usable
`content` field, the fetcher does not return an error at that point: it
performs the plain GET of the original URL and its result is exactly the
plain-GET result. -/
theorem C9_json_fallback (parse : String → HtmlDoc) (net : Network)
    (url boardId : String) (resp : HttpResponse) (data : PyVal)
    (hm : boardIdMatch url = some boardId)
    (hpost : net.post (MUSEUM_BASE_URL ++ "/scipia/boards/showBoard/" ++ boardId) =
      .ok resp)
    (hstatus : statusBad resp.status = false)
    (hjson : resp.jsonBody = some data)
    (hfind : _find_html_with_table data = none)
    (hcontent : contentHtml data = none) :
    _fetch_page parse net url = plainGet parse net url := by
  have hhtml : htmlOf data = none := by
    unfold htmlOf
    rw [hfind]
    exact hcontent
  unfold _fetch_page
  rw [hm]
  show postBranch parse net url
    (MUSEUM_BASE_URL ++ "/scipia/boards/showBoard/" ++ boardId) =
    plainGet parse net url
  rw [postBranch_post_ok hpost, if_neg (by rw [hstatus]; simp), hjson]
  show (match htmlOf data with
    | some hh =>
      if hh = "" then plainGet parse net url
      else buildResult url (parse hh)
        (match jsonTitle data with
          | some t => if t = "" then _extract_page_title (parse hh) else t
          | none => _extract_page_title (parse hh))
    | none => plainGet parse net url) = plainGet parse net url
  rw [hhtml]

/-- Witness for C9: a notice-detail URL whose derived API answers with a
JSON object holding only a harmless string; the fetch equals the plain GET
(here a timeout, hence the uniform error result on both sides). -/
theorem C9_json_fallback_witness :
    boardIdMatch "https://www.sciencecenter.go.kr/scipia/introduce/notice/24281" =
      some "24281" ∧
    _find_html_with_table (.dict [("msg", .str "hello")]) = none ∧
    _fetch_page (fun _ => ⟨[], none, [], []⟩)
      ⟨fun _ => .ok ⟨200, "", some (.dict [("msg", .str "hello")])⟩,
        fun _ => .error "Timeout"⟩
      "https://www.sciencecenter.go.kr/scipia/introduce/notice/24281" =
    plainGet (fun _ => ⟨[], none, [], []⟩)
      ⟨fun _ => .ok ⟨200, "", some (.dict [("msg", .str "hello")])⟩,
        fun _ => .error "Timeout"⟩
      "https://www.sciencecenter.go.kr/scipia/introduce/notice/24281" := by
  refine ⟨by decide, by decide, ?_⟩
  exact C9_json_fallback (fun _ => ⟨[], none, [], []⟩)
    ⟨fun _ => .ok ⟨200, "", some (.dict [("msg", .str "hello")])⟩,
      fun _ => .error "Timeout"⟩
    "https://www.sciencecenter.go.kr/scipia/introduce/notice/24281"
    "24281" ⟨200, "", some (.dict [("msg", .str "hello")])⟩
    (.dict [("msg", .str "hello")])
    (by decide) rfl rfl rfl (by decide) rfl

/-- The path pattern as the claim states it: `/introduce/notice/<id>`
(without the `/scipia` segment the source pattern requires). -/
def claimNoticeLit : List Char := "/introduce/notice/".data

theorem litIdScan_some_decomp :
    ∀ cs ds, litIdScan noticeLit cs = some ds →
      ∃ pre post, cs = pre ++ noticeLit ++ ds ++ post ∧ ds ≠ [] ∧
        ∀ c ∈ ds, isDig c = true := by
  intro cs
  induction cs with
  | nil => intro ds h; simp [litIdScan] at h
  | cons c cs ih =>
    intro ds h
    rw [litIdScan] at h
    split_ifs at h with hpre hemp
    · obtain ⟨pre', post, hcs, hne, hdig⟩ := ih ds h
      exact ⟨c :: pre', post, by rw [hcs]; simp, hne, hdig⟩
    · simp only [Option.some.injEq] at h
      subst h
      rw [List.isPrefixOf_iff_prefix] at hpre
      obtain ⟨tail, htail⟩ := hpre
      have hdrop : (c :: cs).drop noticeLit.length = tail := by
        rw [← htail, List.drop_left]
      rw [hdrop]
      refine ⟨[], tail.dropWhile isDig, ?_, ?_, ?_⟩
      · rw [← htail]
        simp [List.takeWhile_append_dropWhile]
      · intro hnil
        apply hemp
        rw [hdrop, hnil]
        rfl
      · intro c' hc'
        exact List.mem_takeWhile_imp hc'
    · obtain ⟨pre', post, hcs, hne, hdig⟩ := ih ds h
      exact ⟨c :: pre', post, by rw [hcs]; simp, hne, hdig⟩

theorem litIdScan_complete :
    ∀ (pre ds post : List Char), ds ≠ [] → (∀ c ∈ ds, isDig c = true) →
      (litIdScan noticeLit (pre ++ (noticeLit ++ (ds ++ post)))).isSome = true := by
  intro pre
  induction pre with
  | nil =>
    intro ds post hne hdig
    obtain ⟨d, ds', rfl⟩ : ∃ d ds', ds = d :: ds' := by
      cases ds with
      | nil => exact absurd rfl hne
      | cons d ds' => exact ⟨d, ds', rfl⟩
    rw [List.nil_append]
    have hcons : noticeLit ++ (d :: ds' ++ post) =
        '/' :: ("scipia/introduce/notice/".data ++ (d :: ds' ++ post)) := rfl
    rw [hcons, litIdScan, ← hcons]
    rw [if_pos (by rw [List.isPrefixOf_iff_prefix]; exact ⟨_, rfl⟩)]
    rw [List.drop_left]
    rw [if_neg (by
      rw [List.cons_append, List.takeWhile_cons, if_pos (hdig d (List.mem_cons_self d ds'))]
      simp)]
    rfl
  | cons p pre' ih =>
    intro ds post hne hdig
    rw [List.cons_append, litIdScan]
    split_ifs with hpre hemp
    · exact ih ds post hne hdig
    · rfl
    · exact ih ds post hne hdig

/-- The notice-detail pattern as satisfied by a URL: it contains the
literal `/scipia/introduce/notice/` followed by at least one digit. -/
def SpecNoticeDetail (url : String) : Prop :=
  ∃ pre ds post, url.data = pre ++ noticeLit ++ ds ++ post ∧ ds ≠ [] ∧
    ∀ c ∈ ds, isDig c = true

/-- Counterexample to C6 as stated: the URL
`https://www.sciencecenter.go.kr/introduce/notice/24281` matches the
claim's path pattern `/introduce/notice/<numeric-id>`, yet the source
pattern (`/scipia/introduce/notice/(\d+)`) does not match it, so the
fetcher takes the plain-GET path, not the POST path; moreover the endpoint
the source derives carries the `/scipia` segment the claim omits. -/
theorem C6_notice_post_counterexample :
    (litIdScan claimNoticeLit
      "https://www.sciencecenter.go.kr/introduce/notice/24281".data).isSome = true ∧
    boardIdMatch "https://www.sciencecenter.go.kr/introduce/notice/24281" = none ∧
    (MUSEUM_BASE_URL ++ "/scipia/boards/showBoard/" ++ "24281" ≠
      MUSEUM_BASE_URL ++ "/boards/showBoard/" ++ "24281") :=
  ⟨by decide, by decide, by decide⟩

/-- C6 (amended): the fetcher takes the board-detail POST path if and only
if the URL contains `/scipia/introduce/notice/` followed by at least one
digit; in that case the matched id is the (non-empty, all-digit) run
following the first such occurrence and the derived endpoint POSTed to is
`<origin>/scipia/boards/showBoard/<id>`; otherwise it performs the plain
GET. -/
theorem C6_notice_post_amended :
    (∀ url : String, (boardIdMatch url).isSome = true ↔ SpecNoticeDetail url) ∧
    (∀ (parse : String → HtmlDoc) (net : Network) (url boardId : String),
      boardIdMatch url = some boardId →
      boardId ≠ "" ∧ (∀ c ∈ boardId.data, isDig c = true) ∧
      (∃ pre post, url.data = pre ++ noticeLit ++ boardId.data ++ post) ∧
      _fetch_page parse net url = postBranch parse net url
        (MUSEUM_BASE_URL ++ "/scipia/boards/showBoard/" ++ boardId)) ∧
    (∀ (parse : String → HtmlDoc) (net : Network) (url : String),
      boardIdMatch url = none →
      _fetch_page parse net url = plainGet parse net url) := by
  refine ⟨?_, ?_, ?_⟩
  · intro url
    constructor
    · intro h
      unfold boardIdMatch at h
      cases hscan : litIdScan noticeLit url.data with
      | none => rw [hscan] at h; simp at h
      | some ds =>
        obtain ⟨pre, post, hcs, hne, hdig⟩ := litIdScan_some_decomp url.data ds hscan
        exact ⟨pre, ds, post, hcs, hne, hdig⟩
    · rintro ⟨pre, ds, post, hcs, hne, hdig⟩
      unfold boardIdMatch
      have hcomp := litIdScan_complete pre ds post hne hdig
      rw [show pre ++ noticeLit ++ ds ++ post =
        pre ++ (noticeLit ++ (ds ++ post)) by simp] at hcs
      rw [hcs]
      simpa using hcomp
  · intro parse net url boardId hm
    unfold boardIdMatch at hm
    cases hscan : litIdScan noticeLit url.data with
    | none => rw [hscan] at hm; simp at hm
    | some ds =>
      rw [hscan] at hm
      simp only [Option.map_some', Option.some.injEq] at hm
      obtain ⟨pre, post, hcs, hne, hdig⟩ := litIdScan_some_decomp url.data ds hscan
      have hdata : boardId.data = ds := by rw [← hm]
      refine ⟨?_, ?_, ⟨pre, post, by rw [hdata]; exact hcs⟩, ?_⟩
      · rw [str_ne_empty_iff, hdata]
        exact hne
      · rw [hdata]
        exact hdig
      · unfold _fetch_page
        rw [show boardIdMatch url = some boardId by
          unfold boardIdMatch
          rw [hscan]
          exact congrArg some hm]
  · intro parse net url hm
    unfold _fetch_page
    rw [hm]

/-- Witness for C6 (amended) at a URL that does carry the `/scipia`
segment. -/
theorem C6_notice_post_amended_witness :
    boardIdMatch "https://www.sciencecenter.go.kr/scipia/introduce/notice/24281" =
      some "24281" ∧
    SpecNoticeDetail "https://www.sciencecenter.go.kr/scipia/introduce/notice/24281" := by
  refine ⟨by decide, ?_⟩
  exact (C6_notice_post_amended.1
    "https://www.sciencecenter.go.kr/scipia/introduce/notice/24281").1 (by decide)

/-- The title inference as the claim reads: the first *non-empty* text of
an `h1` element (so a later `h1` with text is still used when the first
`h1` is empty), then of an `h2`, then of an `h3`, then the stripped
`<title>` text, else the empty string. -/
def titleClaimC7 (doc : HtmlDoc) : String :=
  match doc.elems.find? (fun e => e.tag = "h1" && !(elemText e = "")) with
  | some e => elemText e
  | none =>
    match doc.elems.find? (fun e => e.tag = "h2" && !(elemText e = "")) with
    | some e => elemText e
    | none =>
      match doc.elems.find? (fun e => e.tag = "h3" && !(elemText e = "")) with
      | some e => elemText e
      | none =>
        match doc.titleText with
        | some s => pyStrip s
        | none => ""

/-- A document whose first `h1` has no text while a second `h1` does. -/
def c7Doc : HtmlDoc := ⟨[⟨"h1", []⟩, ⟨"h1", ["공지사항"]⟩], none, [], []⟩

/-- Counterexample to C7 as stated: on `c7Doc` the source returns the
empty string — `soup.find("h1")` is the first, empty-text `h1`, after
which only `h2`/`h3`/`<title>` are consulted — while the claimed reading
("the first non-empty text of an h1 element") yields the second `h1`'s
text. -/
theorem C7_title_counterexample :
    _extract_page_title c7Doc = "" ∧
    titleClaimC7 c7Doc = "공지사항" ∧
    _extract_page_title c7Doc ≠ titleClaimC7 c7Doc := by
  refine ⟨by decide, by decide, by decide⟩

/-- `specHeading` — one step of the amended title inference, phrased from
the amended claim's words ("the text of the first h1 element, provided
that text is non-empty"). -/
def specHeading (doc : HtmlDoc) (tag : String) : Option String :=
  (doc.elems.find? (fun e => e.tag = tag)).bind
    (fun e => if elemText e = "" then none else some (elemText e))

def specTitleFallback (doc : HtmlDoc) : String :=
  match doc.titleText with
  | some s => if s = "" then "" else pyStrip s
  | none => ""

/-- The amended claim: the text of the *first* `h1` element provided it is
non-empty; failing that, of the first `h2`; failing that, of the first
`h3`; failing that, the stripped `<title>` text; else the empty string. -/
def titleAmendedSpec (doc : HtmlDoc) : String :=
  (((specHeading doc "h1").orElse (fun _ => specHeading doc "h2")).orElse
    (fun _ => specHeading doc "h3")).getD (specTitleFallback doc)

theorem specHeading_eq (doc : HtmlDoc) (tag : String) :
    specHeading doc tag = headingTitle doc tag := by
  cases hf : doc.elems.find? (fun e => e.tag = tag) <;>
    simp [specHeading, headingTitle, hf]

/-- C7 (amended): `_extract_page_title` agrees with the amended
specification on every document. -/
theorem C7_title_amended (doc : HtmlDoc) :
    _extract_page_title doc = titleAmendedSpec doc := by
  rw [titleAmendedSpec, specHeading_eq, specHeading_eq, specHeading_eq]
  cases t1 : headingTitle doc "h1" <;>
    cases t2 : headingTitle doc "h2" <;>
      cases t3 : headingTitle doc "h3" <;>
        simp [_extract_page_title, t1, t2, t3, specTitleFallback]
